import Mathlib

/-!
Verification of the text-processing core of the ai-test-automation repository.

The repository's interesting logic is a pair of ad-hoc text parsers plus an
element-to-prompt formatter:

* `TestCaseGenerator._process_ai_response` (src/test_case_generator.py) parses a
  pasted AI reply, line by line, into structured test-case records;
* `TestCaseGenerator.save_test_cases` serializes each record's step list into a
  renumbered text blob;
* `TestScriptGenerator._extract_code_from_response` (src/test_script_generator.py)
  extracts a code body from a reply, preferring fenced blocks;
* `TestCaseGenerator._format_elements_for_prompt` renders the extracted-element
  record into a textual digest.

Python strings are modelled as `List Char` (`Str` below) and every Python string
operation used by that code (`strip`, `split`, `startswith`, `lower`, `in`,
slicing, `join`, f-string interpolation) is given an explicit executable
definition with the same semantics on the inputs the code handles (ASCII casing
for `lower`, ASCII digits for `isdigit`).  Console output is modelled by
boolean flags, and fallible spreadsheet writes by an explicit `Except`-valued
write parameter.
-/

set_option maxRecDepth 4000

abbrev Str := List Char

/-- Coerce a Lean string literal to the `List Char` model. -/
def str (s : String) : Str := s.data

/-- Python's default `str.strip` whitespace class (ASCII part). -/
def isPySpace (c : Char) : Bool :=
  c = ' ' || c = '\t' || c = '\n' || c = '\r' || c = Char.ofNat 11 || c = Char.ofNat 12

/-- Drop trailing whitespace, the second half of Python `str.strip()`. -/
def dropTrail (l : Str) : Str := (l.reverse.dropWhile isPySpace).reverse

/-- Python `str.strip()` with no argument. -/
def pyStrip (l : Str) : Str := dropTrail (l.dropWhile isPySpace)

/-- Python `str.split('\n')`: split on every newline, keeping empty pieces. -/
def splitNl : Str → List Str
  | [] => [[]]
  | c :: rest =>
    match splitNl rest with
    | [] => [[]]
    | s :: ss => if c = '\n' then [] :: s :: ss else (c :: s) :: ss

/-- Python `sep.join(pieces)`. -/
def pyJoin (sep : Str) : List Str → Str
  | [] => []
  | [l] => l
  | l :: ls => l ++ sep ++ pyJoin sep ls

/-- Concatenation of a list of lists (used for `+=` accumulation loops). -/
def joinAll : List (List α) → List α
  | [] => []
  | l :: ls => l ++ joinAll ls

/-- Python `enumerate(xs, k)`. -/
def pyEnum (k : Nat) : List α → List (Nat × α)
  | [] => []
  | x :: xs => (k, x) :: pyEnum (k + 1) xs

/-- Python `l.startswith(pat)` (receiver first, pattern second). -/
def pyStartsWith : Str → Str → Bool
  | _, [] => true
  | [], _ :: _ => false
  | c :: l, p :: ps => c == p && pyStartsWith l ps

/-- Python `ch in l` for a single character. -/
def hasChar (c : Char) : Str → Bool
  | [] => false
  | d :: l => d == c || hasChar c l

/-- Python `pat in l` for a multi-character pattern (contiguous substring). -/
def hasSub (pat : Str) : Str → Bool
  | [] => pyStartsWith [] pat
  | c :: rest => pyStartsWith (c :: rest) pat || hasSub pat rest

/-- Characters before the first occurrence of `pat`, i.e. Python
`l.split(pat)[0]` (the whole list when `pat` does not occur). -/
def takeUntilSub (pat : Str) : Str → Str
  | [] => []
  | c :: rest => if pyStartsWith (c :: rest) pat then [] else c :: takeUntilSub pat rest

/-- Python `l.split(sep, 1)`: the part before the first `sep`, and the rest
(`none` when `sep` does not occur). -/
def pySplit1 (sep : Char) : Str → Str × Option Str
  | [] => ([], none)
  | c :: rest =>
    if c = sep then ([], some rest)
    else
      match pySplit1 sep rest with
      | (a, b) => (c :: a, b)

/-- ASCII lower-casing of one character (the fragment of Python `str.lower`
exercised by the parser's keyword checks). -/
def lowerChar (c : Char) : Char :=
  if 'A' ≤ c ∧ c ≤ 'Z' then Char.ofNat (c.toNat + 32) else c

/-- Python `l.lower()` (ASCII). -/
def pyLower (l : Str) : Str := l.map lowerChar

/-- Python `l[0].isdigit()` on a (possibly empty) string. -/
def headIsDigit : Str → Bool
  | [] => false
  | c :: _ => c.isDigit

/-- Fuel-driven digit expansion: with `fuel > 0` at least one digit is
produced, and `fuel ≥ n + 1` is always enough fuel for every digit of `n`,
so `natToStrAux (n + 1) n` is the exact decimal rendering.  (Structural
recursion on the fuel keeps the definition kernel-reducible.) -/
def natToStrAux (fuel n : Nat) : Str :=
  match fuel with
  | 0 => []
  | fuel + 1 =>
    if n < 10 then [Char.ofNat (48 + n)]
    else natToStrAux fuel (n / 10) ++ [Char.ofNat (48 + n % 10)]

/-- Decimal rendering of a natural number, Python `str(i)` / f-string `i`
for the non-negative integers the code formats. -/
def natToStr (n : Nat) : Str := natToStrAux (n + 1) n

/-- Python `xs[-1] += s` on a nonempty list of strings. -/
def appendToLast (xs : List Str) (s : Str) : List Str :=
  xs.dropLast ++ [xs.getLastD [] ++ s]

/-! ## The test-case record and the reply parser

Shallow embedding of `TestCaseGenerator._process_ai_response`
(src/test_case_generator.py, lines 214-292). -/

/-- One structured test case: the dict
`{'Test Case ID', 'Test Scenario', 'Steps to Execute', 'Expected Result'}`. -/
structure TestCase where
  tcId : Str
  tcScenario : Str
  steps : List Str
  expected : Str
deriving DecidableEq, Repr, Inhabited

/-- The `section` variable of the parser loop (`None`, `'Steps to Execute'`
or `'Expected Result'`). -/
inductive Sect where
  | steps
  | expected
deriving DecidableEq, Repr

/-- The mutable state of the parser loop: `self.test_cases`,
`current_test_case`, `section`. -/
structure ParseSt where
  acc : List TestCase
  current : Option TestCase
  sect : Option Sect
deriving DecidableEq, Repr

/-- `(line.startswith('Test Case') and ':' in line) or
(line.startswith('TC-') and ':' in line)`. -/
def isHeaderLine (l : Str) : Bool :=
  (pyStartsWith l (str "Test Case") && hasChar ':' l) ||
  (pyStartsWith l (str "TC-") && hasChar ':' l)

/-- `line.lower().startswith('steps to execute') or line.lower() == 'steps'`. -/
def isStepsHeader (l : Str) : Bool :=
  pyStartsWith (pyLower l) (str "steps to execute") || pyLower l == str "steps"

/-- `line.lower().startswith('expected result') or line.lower() == 'expected'`. -/
def isExpectedHeader (l : Str) : Bool :=
  pyStartsWith (pyLower l) (str "expected result") || pyLower l == str "expected"

/-- `match cur with some tc => [tc] | none => []`: the records flushed by
"Save previous test case if it exists" and by the end-of-input append. -/
def flushOpt : Option TestCase → List TestCase
  | some tc => [tc]
  | none => []

/-- One iteration of the `for line in lines` loop of `_process_ai_response`. -/
def stepLine (st : ParseSt) (rawLine : Str) : ParseSt :=
  let line := pyStrip rawLine
  if line = [] then st
  else if isHeaderLine line then
    let acc' := st.acc ++ flushOpt st.current
    let parts := pySplit1 ':' line
    let testId := pyStrip parts.1
    let testScenario := match parts.2 with
      | some rest => pyStrip rest
      | none => []
    { acc := acc', current := some ⟨testId, testScenario, [], []⟩, sect := none }
  else if isStepsHeader line then
    { st with sect := some .steps }
  else if isExpectedHeader line then
    { st with sect := some .expected }
  else
    match st.sect, st.current with
    | some .steps, some tc =>
      if headIsDigit line && hasSub (str ". ") line then
        let stepNumber := takeUntilSub (str ". ") line
        let stepText := pyStrip (line.drop (stepNumber.length + 2))
        { st with current := some { tc with steps := tc.steps ++ [stepText] } }
      else
        if tc.steps ≠ [] then
          if !headIsDigit line || !hasSub (str ". ") line then
            { st with current := some { tc with steps := appendToLast tc.steps (str " " ++ line) } }
          else
            { st with current := some { tc with steps := tc.steps ++ [line] } }
        else
          { st with current := some { tc with steps := tc.steps ++ [line] } }
    | some .expected, some tc =>
      if tc.expected ≠ [] then
        { st with current := some { tc with expected := tc.expected ++ str " " ++ line } }
      else
        { st with current := some { tc with expected := line } }
    | _, _ => st

/-- The whole `for line in lines` loop. -/
def runLines (st : ParseSt) (ls : List Str) : ParseSt := ls.foldl stepLine st

/-- The loop of `_process_ai_response` applied to
`response.strip().split('\n')`, starting from `self.test_cases = prev`,
`current_test_case = None`, `section = None`. -/
def parseFold (prev : List TestCase) (response : Str) : ParseSt :=
  runLines ⟨prev, none, none⟩ (splitNl (pyStrip response))

/-- Observable outcome of `_process_ai_response`: the returned list, the
`self.test_cases` state afterwards, and whether the
"Warning: Empty AI response received." branch printed. -/
structure ProcResult where
  ret : List TestCase
  state : List TestCase
  warnedEmpty : Bool
deriving DecidableEq, Repr

/-- `TestCaseGenerator._process_ai_response` (lines 214-292), with
`prev` standing for the `self.test_cases` list on entry. -/
def processAIResponse (prev : List TestCase) (response : Str) : ProcResult :=
  if pyStrip response = [] then
    { ret := [], state := prev, warnedEmpty := true }
  else
    let st := parseFold prev response
    let final := st.acc ++ flushOpt st.current
    { ret := final, state := final, warnedEmpty := false }

/-! ## Saving test cases

Shallow embedding of `TestCaseGenerator.save_test_cases` (lines 294-334).
The actual spreadsheet write is external I/O; it is modelled by an explicit
`write` parameter returning `Except` (an `Exception` in the Python). -/

/-- `steps_text = ""; for i, step in enumerate(steps, 1): steps_text += f"{i}. {step}\n"`
followed by `.strip()`. -/
def serializeSteps (steps : List Str) : Str :=
  pyStrip (joinAll ((pyEnum 1 steps).map fun p => natToStr p.1 ++ str ". " ++ p.2 ++ ['\n']))

/-- A row of the test-case spreadsheet: the record with its step list
flattened to one numbered string. -/
structure SavedRow where
  tcId : Str
  tcScenario : Str
  stepsText : Str
  expected : Str
deriving DecidableEq, Repr

/-- The per-record body of the save loop: copy the record and replace the
step list by its numbered serialization. -/
def saveRow (tc : TestCase) : SavedRow :=
  { tcId := tc.tcId, tcScenario := tc.tcScenario,
    stepsText := serializeSteps tc.steps, expected := tc.expected }

/-- `TestCaseGenerator.save_test_cases`: returns `False` immediately on an
empty list, otherwise builds the rows and attempts the external write inside
a `try/except` that turns any raised exception into `False`. -/
def save_test_cases (tcs : List TestCase)
    (write : List SavedRow → Except Str Unit) : Bool :=
  if tcs = [] then false
  else
    let rows := tcs.map saveRow
    match write rows with
    | .ok _ => true
    | .error _ => false

/-- A row of the script spreadsheet (`TestScriptGenerator.test_scripts`). -/
structure ScriptRecord where
  tcId : Str
  tcScenario : Str
  code : Str
deriving DecidableEq, Repr

/-- `TestScriptGenerator.save_scripts` (lines 116-124): a bare DataFrame
write with no exception guard, so the write's outcome is the method's. -/
def save_scripts (scripts : List ScriptRecord)
    (write : List ScriptRecord → Except Str Unit) : Except Str Unit :=
  write scripts

/-! ## The script-body extractor

Shallow embedding of `TestScriptGenerator._extract_code_from_response`
(src/test_script_generator.py, lines 79-114). -/

/-- `line.strip().startswith("```python") or line.strip() == "```python"`. -/
def isFenceOpenLine (l : Str) : Bool :=
  pyStartsWith (pyStrip l) (str "```python") || pyStrip l == str "```python"

/-- `line.strip().startswith("import ") or line.strip().startswith("from ")`. -/
def isImportLine (l : Str) : Bool :=
  pyStartsWith (pyStrip l) (str "import ") || pyStartsWith (pyStrip l) (str "from ")

/-- The first loop of `_extract_code_from_response`: collect the lines inside
fenced code blocks, dropping the fence marker lines themselves. -/
def collectFenced : List Str → Bool → List Str
  | [], _ => []
  | l :: ls, inBlock =>
    if isFenceOpenLine l then collectFenced ls true
    else if pyStrip l == str "```" && inBlock then collectFenced ls false
    else if inBlock then l :: collectFenced ls inBlock
    else collectFenced ls inBlock

/-- The fallback loop: once a line stripping to an `import `/`from ` start is
seen, that line and every later line is collected. -/
def collectFromImport : List Str → Bool → List Str
  | [], _ => []
  | l :: ls, inCode =>
    let inCode' := if isImportLine l then true else inCode
    if inCode' then l :: collectFromImport ls inCode'
    else collectFromImport ls inCode'

/-- `TestScriptGenerator._extract_code_from_response`. -/
def extractCode (response : Str) : Str :=
  let lines := splitNl (pyStrip response)
  let code1 := collectFenced lines false
  let code2 := if code1 = [] then collectFromImport lines false else code1
  let code3 := if code2 = [] then lines else code2
  pyJoin (str "\n") code3

/-! ## The element record and the prompt formatter

Shallow embedding of `TestCaseGenerator._format_elements_for_prompt`
(src/test_case_generator.py, lines 107-212).  The JSON dictionaries are
modelled as structures with `Option` fields; `dict.get(key, default)`
becomes `Option.getD`, and a key test `'k' in d and d['k']` (presence plus
truthiness) becomes a match for `some` of a nonempty list. -/

structure Button where
  text : Option Str
  element_type : Option Str
  id : Option Str
  cssClass : Option Str
deriving DecidableEq

structure Link where
  text : Option Str
  href : Option Str
  target : Option Str
deriving DecidableEq

structure SelectOption where
  text : Option Str
deriving DecidableEq

structure InputField where
  element_type : Option Str
  type : Option Str
  name : Option Str
  placeholder : Option Str
  required : Option Bool
  rows : Option Str
  options : Option (List SelectOption)
deriving DecidableEq

structure Form where
  id : Option Str
  method : Option Str
  action : Option Str
  inputs : Option (List InputField)
deriving DecidableEq

structure PageHeader where
  level : Option Str
  text : Option Str
deriving DecidableEq

structure NavItem where
  text : Option Str
  href : Option Str
deriving DecidableEq

structure NavMenu where
  id : Option Str
  items : Option (List NavItem)
deriving DecidableEq

structure PageStructure where
  headers : Option (List PageHeader)
  navigation : Option (List NavMenu)
deriving DecidableEq

structure Metadata where
  description : Option Str
  page_structure : Option PageStructure
deriving DecidableEq

structure Elements where
  metadata : Option Metadata
  buttons : Option (List Button)
  links : Option (List Link)
  inputs : Option (List InputField)
  forms : Option (List Form)
deriving DecidableEq

/-- `f"SITE DESCRIPTION: {...}\n"` when metadata carries a description. -/
def descSection (e : Elements) : List Str :=
  match e.metadata with
  | some m =>
    match m.description with
    | some d => [str "SITE DESCRIPTION: " ++ (d ++ str "\n")]
    | none => []
  | none => []

/-- `f"  {idx}. {text} ({element_type}, id={element_id}, class={css_class})"`. -/
def buttonEntry (idx : Nat) (b : Button) : Str :=
  str "  " ++ (natToStr idx ++ (str ". " ++ (b.text.getD (str "[No text]") ++
    (str " (" ++ (b.element_type.getD (str "button") ++ (str ", id=" ++
    (b.id.getD (str "[No ID]") ++ (str ", class=" ++
    (b.cssClass.getD (str "[No class]") ++ str ")")))))))))

def buttonsSection (e : Elements) : List Str :=
  match e.buttons with
  | some (b :: bs) => str "BUTTONS:" :: ((pyEnum 1 (b :: bs)).map fun p => buttonEntry p.1 p.2)
  | _ => []

/-- `f"  {idx}. {text} (href={href}, target={target})"`. -/
def linkEntry (idx : Nat) (l : Link) : Str :=
  str "  " ++ (natToStr idx ++ (str ". " ++ (l.text.getD (str "[No text]") ++
    (str " (href=" ++ (l.href.getD (str "[No href]") ++ (str ", target=" ++
    (l.target.getD (str "_self") ++ str ")")))))))

def linksSection (e : Elements) : List Str :=
  match e.links with
  | some (l :: ls) => str "\nLINKS:" :: ((pyEnum 1 (l :: ls)).map fun p => linkEntry p.1 p.2)
  | _ => []

/-- The body of the input-fields loop: one formatted entry for an `input`,
`textarea` or `select` field, nothing for any other `element_type`. -/
def inputEntry (idx : Nat) (f : InputField) : List Str :=
  let input_type := f.element_type.getD (str "input")
  if input_type = str "input" then
    [str "  " ++ (natToStr idx ++ (str ". " ++ (f.type.getD (str "text") ++
      (str " input (name=" ++ (f.name.getD (str "[No name]") ++
      (str ", placeholder=" ++ (f.placeholder.getD (str "[No placeholder]") ++
      (str ", " ++ ((if f.required.getD false then str "required" else str "optional") ++
      str ")")))))))))]
  else if input_type = str "textarea" then
    [str "  " ++ (natToStr idx ++ (str ". textarea (name=" ++ (f.name.getD (str "[No name]") ++
      (str ", placeholder=" ++ (f.placeholder.getD (str "[No placeholder]") ++
      (str ", rows=" ++ (f.rows.getD (str "default") ++ str ")")))))))]
  else if input_type = str "select" then
    let options := f.options.getD []
    let options_count := options.length
    let options_text := pyJoin (str ", ") ((options.take 5).map fun o => o.text.getD (str "Option"))
    let options_text :=
      if options_count > 5 then
        options_text ++ (str ", ... (" ++ (natToStr (options_count - 5) ++ str " more)"))
      else options_text
    [str "  " ++ (natToStr idx ++ (str ". select dropdown (name=" ++
      (f.name.getD (str "[No name]") ++ (str ", options: " ++ (options_text ++ str ")")))))]
  else []

def inputsSection (e : Elements) : List Str :=
  match e.inputs with
  | some (f :: fs) =>
    str "\nINPUT FIELDS:" :: joinAll ((pyEnum 1 (f :: fs)).map fun p => inputEntry p.1 p.2)
  | _ => []

/-- The form entry plus the nested per-input detail lines. -/
def formEntry (idx : Nat) (f : Form) : List Str :=
  (str "  " ++ (natToStr idx ++ (str ". form (id=" ++ (f.id.getD (str "[No ID]") ++
    (str ", method=" ++ (f.method.getD (str "get") ++ (str ", action=" ++
    (f.action.getD (str "[No action]") ++ (str ", " ++
    (natToStr (f.inputs.getD []).length ++ str " inputs)")))))))))) ::
  (match f.inputs with
   | some (i :: is) =>
     (pyEnum 1 (i :: is)).map fun p =>
       let input_type := p.2.element_type.getD (str "input")
       let field_type := if input_type = str "input" then p.2.type.getD (str "text") else input_type
       str "    " ++ (natToStr p.1 ++ (str ". " ++ (field_type ++
         (str " (name=" ++ (p.2.name.getD (str "[No name]") ++ str ")")))))
   | _ => [])

def formsSection (e : Elements) : List Str :=
  match e.forms with
  | some (f :: fs) =>
    str "\nFORMS:" :: joinAll ((pyEnum 1 (f :: fs)).map fun p => formEntry p.1 p.2)
  | _ => []

/-- `f"  - {level}: {text}"`. -/
def headerEntry (h : PageHeader) : Str :=
  str "  - " ++ (h.level.getD (str "h") ++ (str ": " ++ h.text.getD (str "[No text]")))

def headersSection (ps : PageStructure) : List Str :=
  match ps.headers with
  | some (h :: hs) => str "\nPAGE HEADERS:" :: (h :: hs).map headerEntry
  | _ => []

/-- `f"    {i}. {text} (href={href})"` for the first five navigation items. -/
def navItemEntry (i : Nat) (it : NavItem) : Str :=
  str "    " ++ (natToStr i ++ (str ". " ++ (it.text.getD (str "[No text]") ++
    (str " (href=" ++ (it.href.getD (str "[No href]") ++ str ")")))))

/-- One navigation menu: the summary line, the first five items, and the
`... (N more items)` line when more than five items exist. -/
def navBlock (nav : NavMenu) : List Str :=
  let items := nav.items.getD []
  let items_count := items.length
  (str "  - Navigation (id=" ++ (nav.id.getD (str "[No ID]") ++
    (str ", " ++ (natToStr items_count ++ str " items)")))) ::
  (((pyEnum 1 (items.take 5)).map fun p => navItemEntry p.1 p.2) ++
   (if items_count > 5 then
      [str "    ... (" ++ (natToStr (items_count - 5) ++ str " more items)")]
    else []))

def navSection (ps : PageStructure) : List Str :=
  match ps.navigation with
  | some (n :: ns) => str "\nNAVIGATION MENUS:" :: joinAll ((n :: ns).map navBlock)
  | _ => []

def pageStructureSection (e : Elements) : List Str :=
  match e.metadata with
  | some m =>
    match m.page_structure with
    | some ps => headersSection ps ++ navSection ps
    | none => []
  | none => []

/-- The `formatted_elements` list accumulated by
`_format_elements_for_prompt` before the final join. -/
def formatElementsList (e : Elements) : List Str :=
  descSection e ++ buttonsSection e ++ linksSection e ++ inputsSection e ++
    formsSection e ++ pageStructureSection e

/-- `TestCaseGenerator._format_elements_for_prompt`. -/
def formatElementsForPrompt (e : Elements) : Str :=
  pyJoin (str "\n") (formatElementsList e)

/-- One fenced segment of a reply: an open-marker line, the block body, a
close-marker line, and the free text that follows before the next segment. -/
structure FencedSeg where
  openLine : Str
  body : List Str
  closeLine : Str
  after : List Str

/-- The lines a fenced segment contributes to the reply. -/
def renderSeg (s : FencedSeg) : List Str :=
  s.openLine :: (s.body ++ (s.closeLine :: s.after))

/-! ## Well-formed replies: blocks, rendering, and per-line behaviour -/

/-- Conditions under which a line is consumed as plain section content:
stripped already, non-blank, and matching neither the test-case-header
pattern nor either section-keyword pattern. -/
def WFContentLine (l : Str) : Prop :=
  pyStrip l = l ∧ l ≠ [] ∧ isHeaderLine l = false ∧
  isStepsHeader l = false ∧ isExpectedHeader l = false

/-- A numbered source step: a nonempty ASCII-digit label and a stripped,
nonempty step text. -/
def WFStepPair (p : Str × Str) : Prop :=
  p.1 ≠ [] ∧ (∀ c ∈ p.1, c ∈ str "0123456789") ∧ pyStrip p.2 = p.2 ∧ p.2 ≠ []

/-- The source text of a numbered step: `<label>. <text>`. -/
def renderStep (p : Str × Str) : Str := p.1 ++ ('.' :: ' ' :: p.2)

/-- One test case as it appears in a well-formed pasted reply: the header
text before and after the colon, the numbered step lines, and the
expected-result lines. -/
structure RawBlock where
  id : Str
  scen : Str
  steps : List (Str × Str)
  expLines : List Str

/-- The lines a block contributes to the reply. -/
def renderBlock (b : RawBlock) : List Str :=
  (b.id ++ (':' :: b.scen)) ::
    (str "Steps to Execute" ::
      (b.steps.map renderStep ++ (str "Expected Result" :: b.expLines)))

/-- Well-formedness of one block: the id-part starts with `Test Case` and
carries no colon, the header line is stripped, each step is well formed and
each expected line is plain content. -/
def WFBlock (b : RawBlock) : Prop :=
  pyStartsWith b.id (str "Test Case") = true ∧
  hasChar ':' b.id = false ∧
  pyStrip b.id = b.id ∧
  pyStrip (b.id ++ (':' :: b.scen)) = b.id ++ (':' :: b.scen) ∧
  (∀ p ∈ b.steps, WFStepPair p) ∧
  (∀ l ∈ b.expLines, WFContentLine l)

/-- The record the parser builds from a well-formed block. -/
def blockRecord (b : RawBlock) : TestCase :=
  ⟨b.id, pyStrip b.scen, b.steps.map (·.2), pyJoin (str " ") b.expLines⟩

instance (l : Str) : Decidable (WFContentLine l) := by
  unfold WFContentLine
  infer_instance

instance (p : Str × Str) : Decidable (WFStepPair p) := by
  unfold WFStepPair
  infer_instance

instance (b : RawBlock) : Decidable (WFBlock b) := by
  unfold WFBlock
  infer_instance

/-- A select field with six options, used to exercise the truncation path. -/
def selFieldW : InputField :=
  ⟨some (str "select"), none, none, none, none, none,
   some [⟨some (str "o1")⟩, ⟨some (str "o2")⟩, ⟨some (str "o3")⟩,
         ⟨some (str "o4")⟩, ⟨some (str "o5")⟩, ⟨some (str "o6")⟩]⟩

/-- An element record holding only `selFieldW`. -/
def elementsSelW : Elements := ⟨none, none, none, some [selFieldW], none⟩

/-- A navigation menu with six items, used to exercise the truncation path. -/
def navMenuW : NavMenu :=
  ⟨none, some [⟨some (str "i1"), none⟩, ⟨some (str "i2"), none⟩, ⟨some (str "i3"), none⟩,
               ⟨some (str "i4"), none⟩, ⟨some (str "i5"), none⟩, ⟨some (str "i6"), none⟩]⟩

/-- An element record holding only `navMenuW`. -/
def elementsNavW : Elements :=
  ⟨some ⟨none, some ⟨none, some [navMenuW]⟩⟩, none, none, none, none⟩

/-- A concrete well-formed block exercising header, steps and expected
sections. -/
def blockW : RawBlock :=
  ⟨str "Test Case 1", str " Login",
   [(str "1", str "Open page"), (str "2", str "Enter credentials")],
   [str "User is logged in"]⟩

/-! ## Lemmas and claim theorems -/

/-! ## Basic lemmas about the string model -/

theorem length_dropWhile_le (p : α → Bool) (l : List α) :
    (l.dropWhile p).length ≤ l.length := by
  induction l with
  | nil => simp
  | cons a t ih =>
    rw [List.dropWhile_cons]
    by_cases hp : p a
    · simp only [hp, if_true]
      simpa using Nat.le_succ_of_le ih
    · simp [hp]

theorem dropWhile_eq_self_of_length {p : α → Bool} {l : List α}
    (h : (l.dropWhile p).length = l.length) : l.dropWhile p = l := by
  cases l with
  | nil => rfl
  | cons a t =>
    rw [List.dropWhile_cons] at h ⊢
    by_cases hp : p a
    · simp only [hp, if_true] at h
      have := length_dropWhile_le p t
      simp at h
      omega
    · simp [hp]

theorem head_false_of_dropWhile_eq_self {p : α → Bool} {l : List α} {c : α}
    (h : l.dropWhile p = l) (hc : l.head? = some c) : p c = false := by
  cases l with
  | nil => simp at hc
  | cons a t =>
    have hac : a = c := by simpa using hc
    subst hac
    rw [List.dropWhile_cons] at h
    by_cases hp : p a
    · simp only [hp, if_true] at h
      have h1 := length_dropWhile_le p t
      have h2 : (t.dropWhile p).length = t.length + 1 := by rw [h]; simp
      omega
    · simpa using hp

theorem length_dropTrail_le (l : Str) : (dropTrail l).length ≤ l.length := by
  unfold dropTrail
  calc ((l.reverse.dropWhile isPySpace).reverse).length
      = (l.reverse.dropWhile isPySpace).length := by simp
    _ ≤ l.reverse.length := length_dropWhile_le _ _
    _ = l.length := by simp

theorem stripFixed_dropWhile {l : Str} (h : pyStrip l = l) :
    l.dropWhile isPySpace = l := by
  apply dropWhile_eq_self_of_length
  have h1 := length_dropWhile_le isPySpace l
  have h2 := length_dropTrail_le (l.dropWhile isPySpace)
  unfold pyStrip at h
  have h3 : (dropTrail (l.dropWhile isPySpace)).length = l.length := by rw [h]
  omega

theorem stripFixed_dropTrail {l : Str} (h : pyStrip l = l) : dropTrail l = l := by
  have h2 := h
  unfold pyStrip at h2
  rw [stripFixed_dropWhile h] at h2
  exact h2

theorem stripFixed_head {l : Str} {c : Char} (h : pyStrip l = l)
    (hc : l.head? = some c) : isPySpace c = false :=
  head_false_of_dropWhile_eq_self (stripFixed_dropWhile h) hc

theorem stripFixed_getLast {l : Str} {c : Char} (h : pyStrip l = l)
    (hc : l.getLast? = some c) : isPySpace c = false := by
  have hrev : l.reverse.dropWhile isPySpace = l.reverse := by
    have h1 := stripFixed_dropTrail h
    unfold dropTrail at h1
    have h2 := congrArg List.reverse h1
    simpa using h2
  exact head_false_of_dropWhile_eq_self hrev (by rwa [List.head?_reverse])

theorem pyStrip_eq_self {l : Str}
    (h1 : ∀ c, l.head? = some c → isPySpace c = false)
    (h2 : ∀ c, l.getLast? = some c → isPySpace c = false) : pyStrip l = l := by
  cases l with
  | nil => rfl
  | cons a t =>
    unfold pyStrip
    rw [List.dropWhile_cons]
    have ha : isPySpace a = false := h1 a rfl
    rw [ha]
    simp only [Bool.false_eq_true, if_false]
    unfold dropTrail
    cases hr : (a :: t).reverse with
    | nil => simp at hr
    | cons b s =>
      have hb : (a :: t).getLast? = some b := by
        rw [← List.head?_reverse, hr]; rfl
      rw [List.dropWhile_cons, h2 b hb]
      simp only [Bool.false_eq_true, if_false]
      have h3 := congrArg List.reverse hr
      simp only [List.reverse_reverse] at h3
      rw [h3]

theorem pyStrip_eq_nil_of_all_space {l : Str}
    (h : ∀ c ∈ l, isPySpace c = true) : pyStrip l = [] := by
  have hd : l.dropWhile isPySpace = [] := by
    induction l with
    | nil => rfl
    | cons a t ih =>
      rw [List.dropWhile_cons, h a (by simp)]
      simp only [if_true]
      exact ih fun c hc => h c (by simp [hc])
  unfold pyStrip
  rw [hd]
  rfl

theorem dropWhile_append_of_ne_nil {p : α → Bool} {l m : List α}
    (h : l.dropWhile p ≠ []) : (l ++ m).dropWhile p = l.dropWhile p ++ m := by
  induction l with
  | nil => simp at h
  | cons a t ih =>
    by_cases hp : p a
    · rw [List.dropWhile_cons_of_pos hp] at h
      rw [List.cons_append, List.dropWhile_cons_of_pos hp, List.dropWhile_cons_of_pos hp]
      exact ih h
    · rw [List.cons_append, List.dropWhile_cons_of_neg hp, List.dropWhile_cons_of_neg hp]
      rw [List.cons_append]

theorem pyStrip_append_space {l : Str} {c : Char} (h : isPySpace c = true) :
    pyStrip (l ++ [c]) = pyStrip l := by
  by_cases hd : l.dropWhile isPySpace = []
  · have hall : ∀ x ∈ l, isPySpace x = true := List.dropWhile_eq_nil_iff.1 hd
    rw [pyStrip_eq_nil_of_all_space hall]
    apply pyStrip_eq_nil_of_all_space
    intro x hx
    rcases List.mem_append.1 hx with hx | hx
    · exact hall x hx
    · simp at hx
      rwa [hx]
  · unfold pyStrip
    rw [dropWhile_append_of_ne_nil hd]
    unfold dropTrail
    rw [List.reverse_append]
    simp only [List.reverse_cons, List.reverse_nil, List.nil_append]
    rw [List.singleton_append, List.dropWhile_cons, h]
    simp

/-! ## Lemmas about splitting, joining and digit rendering -/

theorem splitNl_ne_nil (l : Str) : splitNl l ≠ [] := by
  cases l with
  | nil => simp [splitNl]
  | cons c rest =>
    rw [splitNl]
    cases h : splitNl rest with
    | nil => simp
    | cons s ss => by_cases hc : c = '\n' <;> simp [hc]

theorem splitNl_no_nl {l : Str} (h : '\n' ∉ l) : splitNl l = [l] := by
  induction l with
  | nil => rfl
  | cons c rest ih =>
    rw [splitNl]
    have hc : c ≠ '\n' := fun hcc => h (hcc ▸ List.mem_cons_self c rest)
    have hr : splitNl rest = [rest] := ih fun hm => h (List.mem_cons_of_mem c hm)
    rw [hr]
    simp [hc]

theorem splitNl_append_nl {l : Str} (m : Str) (h : '\n' ∉ l) :
    splitNl (l ++ '\n' :: m) = l :: splitNl m := by
  induction l with
  | nil =>
    rw [List.nil_append, splitNl]
    cases hm : splitNl m with
    | nil => exact absurd hm (splitNl_ne_nil m)
    | cons s ss => simp
  | cons c rest ih =>
    have hc : c ≠ '\n' := fun hcc => h (hcc ▸ List.mem_cons_self c rest)
    have hr := ih fun hm => h (List.mem_cons_of_mem c hm)
    rw [List.cons_append, splitNl, hr]
    simp [hc]

theorem splitNl_pyJoin {ls : List Str} (hne : ls ≠ [])
    (h : ∀ x ∈ ls, '\n' ∉ x) : splitNl (pyJoin (str "\n") ls) = ls := by
  induction ls with
  | nil => exact absurd rfl hne
  | cons a t ih =>
    cases t with
    | nil => exact splitNl_no_nl (h a (by simp))
    | cons b u =>
      have hstep : pyJoin (str "\n") (a :: b :: u) = a ++ '\n' :: pyJoin (str "\n") (b :: u) := by
        show a ++ str "\n" ++ pyJoin (str "\n") (b :: u) = _
        rw [List.append_assoc]
        rfl
      rw [hstep, splitNl_append_nl _ (h a (by simp))]
      rw [ih (by simp) fun x hx => h x (List.mem_cons_of_mem a hx)]

theorem pyJoin_splitNl (l : Str) : pyJoin (str "\n") (splitNl l) = l := by
  induction l with
  | nil => rfl
  | cons c rest ih =>
    rw [splitNl]
    cases hr : splitNl rest with
    | nil => exact absurd hr (splitNl_ne_nil rest)
    | cons s ss =>
      rw [hr] at ih
      by_cases hc : c = '\n'
      · subst hc
        simp only [if_true]
        show str "\n" ++ pyJoin (str "\n") (s :: ss) = '\n' :: rest
        rw [ih]
        rfl
      · simp only [hc, if_false]
        cases ss with
        | nil =>
          show c :: s = c :: rest
          rw [show pyJoin (str "\n") [s] = s from rfl] at ih
          rw [ih]
        | cons y u =>
          show (c :: s) ++ str "\n" ++ pyJoin (str "\n") (y :: u) = c :: rest
          rw [List.cons_append, List.cons_append]
          rw [show s ++ str "\n" ++ pyJoin (str "\n") (y :: u) = pyJoin (str "\n") (s :: y :: u) from rfl]
          rw [ih]

theorem mem_joinAll {a : α} {ls : List (List α)} :
    a ∈ joinAll ls ↔ ∃ l ∈ ls, a ∈ l := by
  induction ls with
  | nil => simp [joinAll]
  | cons x t ih => rw [joinAll]; simp [ih]

theorem joinAll_append (xs ys : List (List α)) :
    joinAll (xs ++ ys) = joinAll xs ++ joinAll ys := by
  induction xs with
  | nil => rfl
  | cons x t ih => rw [List.cons_append, joinAll, joinAll, ih, List.append_assoc]

theorem pyEnum_mem_snd {k : Nat} {l : List α} {i : Nat} {x : α}
    (h : (i, x) ∈ pyEnum k l) : x ∈ l := by
  induction l generalizing k with
  | nil => simp [pyEnum] at h
  | cons a t ih =>
    rw [pyEnum] at h
    rcases List.mem_cons.1 h with h | h
    · simp at h
      simp [h.2]
    · exact List.mem_cons_of_mem a (ih h)

theorem pyEnum_eq_nil_iff {k : Nat} {l : List α} : pyEnum k l = [] ↔ l = [] := by
  cases l <;> simp [pyEnum]

theorem joinAll_map_append_nl {xs : List Str} (h : xs ≠ []) :
    joinAll (xs.map (· ++ ['\n'])) = pyJoin (str "\n") xs ++ ['\n'] := by
  induction xs with
  | nil => exact absurd rfl h
  | cons a t ih =>
    cases t with
    | nil => simp [joinAll, pyJoin]
    | cons b u =>
      rw [List.map_cons, joinAll, ih (by simp)]
      show a ++ ['\n'] ++ (pyJoin (str "\n") (b :: u) ++ ['\n']) =
        a ++ str "\n" ++ pyJoin (str "\n") (b :: u) ++ ['\n']
      simp [List.append_assoc]
      rfl

theorem digitChar_spec {c : Char} (h : c ∈ str "0123456789") :
    c.isDigit = true ∧ isPySpace c = false ∧ lowerChar c = c ∧
    (c == 'T') = false ∧ (c == '.') = false ∧ (c == 's') = false ∧
    (c == 'e') = false ∧ c ≠ '\n' := by
  have h' : c ∈ ['0', '1', '2', '3', '4', '5', '6', '7', '8', '9'] := h
  simp only [List.mem_cons, List.not_mem_nil, or_false] at h'
  rcases h' with rfl | rfl | rfl | rfl | rfl | rfl | rfl | rfl | rfl | rfl <;>
    exact ⟨by decide, by decide, by decide, by decide, by decide, by decide, by decide, by decide⟩

theorem mem_natToStrAux_digits {fuel n : Nat} {c : Char}
    (h : c ∈ natToStrAux fuel n) : c ∈ str "0123456789" := by
  induction fuel generalizing n with
  | zero => simp [natToStrAux] at h
  | succ fuel ih =>
    rw [natToStrAux] at h
    by_cases hn : n < 10
    · rw [if_pos hn] at h
      simp at h
      subst h
      interval_cases n <;> decide
    · rw [if_neg hn] at h
      rcases List.mem_append.1 h with h | h
      · exact ih h
      · simp at h
        subst h
        have h10 : n % 10 < 10 := Nat.mod_lt _ (by omega)
        interval_cases hm : n % 10 <;> simp_all <;> decide

theorem natToStr_ne_nil (n : Nat) : natToStr n ≠ [] := by
  rw [natToStr, natToStrAux]
  by_cases hn : n < 10
  · simp [hn]
  · simp [hn]

theorem mem_natToStr_digits {n : Nat} {c : Char} (h : c ∈ natToStr n) :
    c ∈ str "0123456789" := mem_natToStrAux_digits h

/-! ## Lemmas about pattern tests on constructed lines -/

theorem pyStartsWith_nil_pat (a : Str) : pyStartsWith a [] = true := by
  cases a <;> rfl

theorem pyStartsWith_append_left {a p : Str} (b : Str)
    (h : pyStartsWith a p = true) : pyStartsWith (a ++ b) p = true := by
  induction p generalizing a with
  | nil => exact pyStartsWith_nil_pat _
  | cons q qs ih =>
    cases a with
    | nil => simp [pyStartsWith] at h
    | cons c l =>
      rw [List.cons_append]
      show ((c == q) && pyStartsWith (l ++ b) qs) = true
      have h' : ((c == q) && pyStartsWith l qs) = true := h
      rcases Bool.and_eq_true_iff.1 h' with ⟨h1, h2⟩
      rw [h1, ih h2]
      rfl

theorem pyStartsWith_self_append (p b : Str) : pyStartsWith (p ++ b) p = true := by
  have h : pyStartsWith p p = true := by
    induction p with
    | nil => rfl
    | cons c l ih =>
      show ((c == c) && pyStartsWith l l) = true
      rw [beq_self_eq_true, ih]
      rfl
  exact pyStartsWith_append_left b h

theorem pyStartsWith_ne_nil {a p : Str} {q : Char} {qs : Str}
    (hp : p = q :: qs) (h : pyStartsWith a p = true) : a ≠ [] := by
  subst hp
  cases a with
  | nil => simp [pyStartsWith] at h
  | cons c l => simp

theorem hasChar_append_mid (c : Char) (a b : Str) :
    hasChar c (a ++ c :: b) = true := by
  induction a with
  | nil =>
    show ((c == c) || hasChar c b) = true
    rw [beq_self_eq_true]
    rfl
  | cons d t ih =>
    show ((d == c) || hasChar c (t ++ c :: b)) = true
    rw [ih]
    simp

theorem pySplit1_boundary {sep : Char} {a : Str} (b : Str)
    (h : hasChar sep a = false) : pySplit1 sep (a ++ sep :: b) = (a, some b) := by
  induction a with
  | nil => simp [pySplit1]
  | cons c t ih =>
    rw [hasChar] at h
    rcases Bool.or_eq_false_iff.1 h with ⟨h1, h2⟩
    have hc : ¬c = sep := by simpa using h1
    rw [List.cons_append, pySplit1]
    rw [if_neg hc, ih h2]

theorem hasSub_append_mid (pat a b : Str) : hasSub pat (a ++ (pat ++ b)) = true := by
  induction a with
  | nil =>
    rw [List.nil_append]
    cases hp : pat ++ b with
    | nil =>
      rcases List.append_eq_nil.1 hp with ⟨h1, _⟩
      subst h1
      rfl
    | cons c rest =>
      show (pyStartsWith (c :: rest) pat || hasSub pat rest) = true
      rw [← hp, pyStartsWith_self_append]
      rfl
  | cons d t ih =>
    rw [List.cons_append]
    show (pyStartsWith (d :: (t ++ (pat ++ b))) pat || hasSub pat (t ++ (pat ++ b))) = true
    rw [ih]
    simp

theorem takeUntilSub_boundary {a : Str} (b : Str)
    (h : ∀ c ∈ a, (c == '.') = false) :
    takeUntilSub (str ". ") (a ++ '.' :: ' ' :: b) = a := by
  induction a with
  | nil =>
    rw [List.nil_append, takeUntilSub]
    rw [if_pos]
    show (('.' == '.') && ((' ' == ' ') && pyStartsWith b [])) = true
    rw [pyStartsWith_nil_pat]
    decide
  | cons d t ih =>
    rw [List.cons_append, takeUntilSub, if_neg, ih fun c hc => h c (List.mem_cons_of_mem d hc)]
    show ¬((d == '.') && ((' ' == ' ') && pyStartsWith (t ++ '.' :: ' ' :: b) [' '])) = true
    rw [h d (List.mem_cons_self d t)]
    simp

theorem drop_length_append (a b : List α) (k : Nat) :
    (a ++ b).drop (a.length + k) = b.drop k := by
  induction a with
  | nil => simp
  | cons c t ih =>
    rw [List.cons_append, List.length_cons]
    have hk : t.length + 1 + k = t.length + k + 1 := by omega
    rw [hk]
    show List.drop (t.length + k + 1) (c :: (t ++ b)) = b.drop k
    rw [List.drop_succ_cons]
    exact ih

theorem isHeaderLine_cons_false {c : Char} {l : Str} (h : (c == 'T') = false) :
    isHeaderLine (c :: l) = false := by
  unfold isHeaderLine
  have h1 : pyStartsWith (c :: l) (str "Test Case") = false := by
    show ((c == 'T') && pyStartsWith l (str "est Case")) = false
    rw [h]
    rfl
  have h2 : pyStartsWith (c :: l) (str "TC-") = false := by
    show ((c == 'T') && pyStartsWith l (str "C-")) = false
    rw [h]
    rfl
  rw [h1, h2]
  rfl

theorem isStepsHeader_cons_false {c : Char} {l : Str}
    (h : (lowerChar c == 's') = false) : isStepsHeader (c :: l) = false := by
  unfold isStepsHeader
  have h1 : pyStartsWith (pyLower (c :: l)) (str "steps to execute") = false := by
    show ((lowerChar c == 's') && pyStartsWith (pyLower l) (str "teps to execute")) = false
    rw [h]
    rfl
  have h2 : (pyLower (c :: l) == str "steps") = false := by
    show ((lowerChar c == 's') && (pyLower l == str "teps")) = false
    rw [h]
    rfl
  rw [h1, h2]
  rfl

theorem isExpectedHeader_cons_false {c : Char} {l : Str}
    (h : (lowerChar c == 'e') = false) : isExpectedHeader (c :: l) = false := by
  unfold isExpectedHeader
  have h1 : pyStartsWith (pyLower (c :: l)) (str "expected result") = false := by
    show ((lowerChar c == 'e') && pyStartsWith (pyLower l) (str "xpected result")) = false
    rw [h]
    rfl
  have h2 : (pyLower (c :: l) == str "expected") = false := by
    show ((lowerChar c == 'e') && (pyLower l == str "xpected")) = false
    rw [h]
    rfl
  rw [h1, h2]
  rfl

theorem isHeaderLine_header (idStr scen : Str)
    (h : pyStartsWith idStr (str "Test Case") = true) :
    isHeaderLine (idStr ++ ':' :: scen) = true := by
  unfold isHeaderLine
  rw [pyStartsWith_append_left _ h, hasChar_append_mid]
  rfl

/-! ## State-machine lemmas for the reply parser -/

theorem stepLine_shift (acc : List TestCase) (cur : Option TestCase)
    (sec : Option Sect) (l : Str) :
    stepLine ⟨acc, cur, sec⟩ l =
      ⟨acc ++ (stepLine ⟨[], cur, sec⟩ l).acc,
       (stepLine ⟨[], cur, sec⟩ l).current,
       (stepLine ⟨[], cur, sec⟩ l).sect⟩ := by
  unfold stepLine
  by_cases h0 : pyStrip l = []
  · simp [h0]
  · by_cases h1 : isHeaderLine (pyStrip l)
    · simp [h0, h1]
    · by_cases h2 : isStepsHeader (pyStrip l)
      · simp [h0, h1, h2]
      · by_cases h3 : isExpectedHeader (pyStrip l)
        · simp [h0, h1, h2, h3]
        · rcases sec with _ | s
          · simp [h0, h1, h2, h3]
          · rcases s with _ | _
            · rcases cur with _ | tc
              · simp [h0, h1, h2, h3]
              · simp only [h0, h1, h2, h3, Bool.false_eq_true, if_false, if_neg]
                repeat' split
                all_goals simp
            · rcases cur with _ | tc
              · simp [h0, h1, h2, h3]
              · simp only [h0, h1, h2, h3, Bool.false_eq_true, if_false, if_neg]
                repeat' split
                all_goals simp

theorem runLines_shift (ls : List Str) (acc : List TestCase)
    (cur : Option TestCase) (sec : Option Sect) :
    runLines ⟨acc, cur, sec⟩ ls =
      ⟨acc ++ (runLines ⟨[], cur, sec⟩ ls).acc,
       (runLines ⟨[], cur, sec⟩ ls).current,
       (runLines ⟨[], cur, sec⟩ ls).sect⟩ := by
  induction ls generalizing acc cur sec with
  | nil => simp [runLines]
  | cons l t ih =>
    have hsplit : runLines ⟨acc, cur, sec⟩ (l :: t) = runLines (stepLine ⟨acc, cur, sec⟩ l) t := rfl
    have hsplit0 : runLines ⟨([] : List TestCase), cur, sec⟩ (l :: t) =
        runLines (stepLine ⟨[], cur, sec⟩ l) t := rfl
    rw [hsplit, hsplit0, stepLine_shift acc cur sec l]
    cases hd : stepLine ⟨([] : List TestCase), cur, sec⟩ l with
    | mk da dc ds =>
      simp only [hd]
      rw [ih, ih]
      simp [List.append_assoc]
      rw [ih da dc ds]
      simp

/-- C10: `_process_ai_response` only appends to the accumulated
`self.test_cases` list: for any prior contents `prev`, the state after a call
is `prev` followed by exactly the records the same reply would produce from an
empty list; consequently parsing two replies in succession yields the first
reply's records followed by the second's, with earlier records never cleared,
removed or modified. -/
theorem processAIResponse_append_only :
    (∀ (prev : List TestCase) (r : Str),
      (processAIResponse prev r).state = prev ++ (processAIResponse [] r).state) ∧
    (∀ r1 r2 : Str,
      (processAIResponse (processAIResponse [] r1).state r2).state =
        (processAIResponse [] r1).state ++ (processAIResponse [] r2).state) := by
  have hmain : ∀ (prev : List TestCase) (r : Str),
      (processAIResponse prev r).state = prev ++ (processAIResponse [] r).state := by
    intro prev r
    unfold processAIResponse
    by_cases h0 : pyStrip r = []
    · simp [h0]
    · simp only [h0, if_neg, if_false]
      unfold parseFold
      rw [runLines_shift]
      simp [List.append_assoc]
  exact ⟨hmain, fun r1 r2 => hmain _ r2⟩

/-- C4: an empty or whitespace-only reply makes `_process_ai_response` return
an empty record list, print the empty-response warning, and leave the
accumulated state untouched; the embedding is a total function, so no
exception is possible on this path. -/
theorem processAIResponse_empty_reply (prev : List TestCase) (response : Str)
    (h : ∀ c ∈ response, isPySpace c = true) :
    (processAIResponse prev response).ret = [] ∧
    (processAIResponse prev response).warnedEmpty = true ∧
    (processAIResponse prev response).state = prev := by
  have hs := pyStrip_eq_nil_of_all_space h
  simp [processAIResponse, hs]

theorem processAIResponse_empty_reply_witness :
    (∀ c ∈ str "  \t\n ", isPySpace c = true) ∧
    ((processAIResponse [] (str "  \t\n ")).ret = [] ∧
     (processAIResponse [] (str "  \t\n ")).warnedEmpty = true ∧
     (processAIResponse [] (str "  \t\n ")).state = []) :=
  ⟨by decide, processAIResponse_empty_reply [] (str "  \t\n ") (by decide)⟩

/-- C3: whenever the parser loop finishes with a record still open (the reply's
last test case was not followed by another header line), that record is
appended to the output: the final state is the loop's accumulated list plus
the open record, which is therefore the last record emitted, never dropped. -/
theorem processAIResponse_flushes_last (prev : List TestCase) (response : Str)
    (tc : TestCase) (h0 : pyStrip response ≠ [])
    (h1 : (parseFold prev response).current = some tc) :
    (processAIResponse prev response).state = (parseFold prev response).acc ++ [tc] ∧
    (processAIResponse prev response).state.getLast? = some tc := by
  unfold processAIResponse
  rw [if_neg h0]
  refine ⟨by simp [h1, flushOpt], ?_⟩
  simp [h1, flushOpt]

theorem processAIResponse_flushes_last_witness :
    (processAIResponse [] (str "Test Case 7: Y\nSteps to Execute\n1. A")).state =
      (parseFold [] (str "Test Case 7: Y\nSteps to Execute\n1. A")).acc ++
        [⟨str "Test Case 7", str "Y", [str "A"], []⟩] ∧
    (processAIResponse [] (str "Test Case 7: Y\nSteps to Execute\n1. A")).state.getLast? =
      some ⟨str "Test Case 7", str "Y", [str "A"], []⟩ :=
  processAIResponse_flushes_last [] _ _ (by decide) (by decide)

/-! ## The steps-section line rule (claim C2) -/

/-- C2 counterexample: in the steps section the code tests
`line[0].isdigit() and '. ' in line`, i.e. the `". "` may occur anywhere in
the line, not immediately after the leading digit.  On the line
`"2 eggs. then stir"` the code therefore opens a new step and strips the
non-numeric prefix `"2 eggs. "`, whereas the claim predicts a continuation
line space-joined onto the previous step. -/
theorem stepsRule_counterexample :
    (processAIResponse []
      (str "Test Case 1: A\nSteps to Execute\n1. First\n2 eggs. then stir")).state =
      [⟨str "Test Case 1", str "A", [str "First", str "then stir"], []⟩] ∧
    ¬(processAIResponse []
      (str "Test Case 1: A\nSteps to Execute\n1. First\n2 eggs. then stir")).state =
      [⟨str "Test Case 1", str "A", [str "First 2 eggs. then stir"], []⟩] :=
  ⟨by decide, by decide⟩

/-- C2 amended: a non-blank, non-header, non-keyword line processed with a
record open and the steps section active opens a new step if and only if its
first character is a digit AND `". "` occurs somewhere in the line; in that
case everything up to and including the first `". "` occurrence is stripped
(then whitespace-trimmed).  Every other line is space-joined onto the last
collected step, or becomes step 1 when the step list is empty (the
`append(line)` branch guarded by `not line[0].isdigit() or '. ' not in line`
being false is unreachable). -/
theorem stepsRule_amended (acc : List TestCase) (tc : TestCase) (line : Str)
    (hstrip : pyStrip line = line) (hne : line ≠ [])
    (hh : isHeaderLine line = false) (hs : isStepsHeader line = false)
    (he : isExpectedHeader line = false) :
    stepLine ⟨acc, some tc, some .steps⟩ line =
      if headIsDigit line && hasSub (str ". ") line then
        ⟨acc, some { tc with steps :=
          tc.steps ++ [pyStrip (line.drop ((takeUntilSub (str ". ") line).length + 2))] },
         some .steps⟩
      else if tc.steps = [] then
        ⟨acc, some { tc with steps := [line] }, some .steps⟩
      else
        ⟨acc, some { tc with steps := appendToLast tc.steps (str " " ++ line) }, some .steps⟩ := by
  unfold stepLine
  simp only [hstrip, hne, if_false, hh, hs, he, Bool.false_eq_true]
  by_cases hd : headIsDigit line && hasSub (str ". ") line
  · simp [hd]
  · simp only [hd, Bool.false_eq_true, if_false]
    by_cases ht : tc.steps = []
    · simp [ht]
    · simp only [ht, if_false, if_neg]
      have hcont : (!headIsDigit line || !hasSub (str ". ") line) = true := by
        rcases Bool.and_eq_false_iff.1 (Bool.eq_false_iff.2 hd) with h | h <;> simp [h]
      simp [hcont, ht]

theorem stepsRule_amended_witness :
    stepLine ⟨[], some ⟨str "TC-9", str "s", [str "First"], []⟩, some .steps⟩
        (str "2 eggs. then stir") =
      (if headIsDigit (str "2 eggs. then stir") && hasSub (str ". ") (str "2 eggs. then stir") then
        ⟨[], some ⟨str "TC-9", str "s",
          [str "First"] ++ [pyStrip ((str "2 eggs. then stir").drop
            ((takeUntilSub (str ". ") (str "2 eggs. then stir")).length + 2))], []⟩,
         some .steps⟩
      else if ([str "First"] : List Str) = [] then
        ⟨[], some ⟨str "TC-9", str "s", [str "2 eggs. then stir"], []⟩, some .steps⟩
      else
        ⟨[], some ⟨str "TC-9", str "s",
          appendToLast [str "First"] (str " " ++ str "2 eggs. then stir"), []⟩,
         some .steps⟩ : ParseSt) :=
  stepsRule_amended [] ⟨str "TC-9", str "s", [str "First"], []⟩ (str "2 eggs. then stir")
    (by decide) (by decide) (by decide) (by decide) (by decide)

/-! ## Persistence error handling (claim C8) -/

/-- C8: a write failure inside `save_test_cases` is caught by its
`try/except` and surfaces only as the `False` return value, while
`save_scripts` has no guard, so the same kind of failure propagates to the
caller unchanged. -/
theorem saveWriteFailure (tcs : List TestCase)
    (w1 : List SavedRow → Except Str Unit) (e1 : Str)
    (scripts : List ScriptRecord) (w2 : List ScriptRecord → Except Str Unit) (e2 : Str)
    (h1 : w1 (tcs.map saveRow) = .error e1) (h2 : w2 scripts = .error e2) :
    save_test_cases tcs w1 = false ∧ save_scripts scripts w2 = Except.error e2 := by
  constructor
  · unfold save_test_cases
    by_cases ht : tcs = []
    · simp [ht]
    · rw [if_neg ht]
      show (match w1 (List.map saveRow tcs) with
            | Except.ok _ => true
            | Except.error _ => false) = false
      rw [h1]
  · exact h2

theorem saveWriteFailure_witness :
    save_test_cases [⟨str "TC-1", str "s", [str "a"], str "e"⟩]
        (fun _ => .error (str "disk full")) = false ∧
    save_scripts [⟨str "TC-1", str "s", str "pass"⟩]
        (fun _ => .error (str "disk full")) = Except.error (str "disk full") :=
  saveWriteFailure [⟨str "TC-1", str "s", [str "a"], str "e"⟩] _ (str "disk full")
    [⟨str "TC-1", str "s", str "pass"⟩] _ (str "disk full") rfl rfl

/-! ## Behaviour of the fenced-block collector -/

theorem collectFenced_skip (ls m : List Str)
    (h : ∀ l ∈ ls, isFenceOpenLine l = false) :
    collectFenced (ls ++ m) false = collectFenced m false := by
  induction ls with
  | nil => rfl
  | cons l t ih =>
    rw [List.cons_append, collectFenced]
    rw [h l (List.mem_cons_self l t)]
    simp only [Bool.false_eq_true, if_false, Bool.and_false]
    exact ih fun x hx => h x (List.mem_cons_of_mem l hx)

theorem collectFenced_none (ls : List Str)
    (h : ∀ l ∈ ls, isFenceOpenLine l = false) :
    collectFenced ls false = [] := by
  have h1 := collectFenced_skip ls [] h
  rw [List.append_nil] at h1
  rw [h1]
  rfl

theorem collectFenced_open {o : Str} (m : List Str) (b : Bool)
    (h : isFenceOpenLine o = true) :
    collectFenced (o :: m) b = collectFenced m true := by
  rw [collectFenced, h]
  simp

theorem collectFenced_close {c : Str} (m : List Str)
    (h : pyStrip c = str "```") :
    collectFenced (c :: m) true = collectFenced m false := by
  have ho : isFenceOpenLine c = false := by
    unfold isFenceOpenLine
    rw [h]
    decide
  rw [collectFenced, ho, h]
  simp

theorem collectFenced_body (body m : List Str)
    (h : ∀ l ∈ body, isFenceOpenLine l = false ∧ (pyStrip l == str "```") = false) :
    collectFenced (body ++ m) true = body ++ collectFenced m true := by
  induction body with
  | nil => rfl
  | cons l t ih =>
    rw [List.cons_append, collectFenced]
    rcases h l (List.mem_cons_self l t) with ⟨h1, h2⟩
    rw [h1, h2]
    simp only [Bool.false_eq_true, if_false, Bool.false_and, if_true]
    rw [List.cons_append]
    rw [ih fun x hx => h x (List.mem_cons_of_mem l hx)]

theorem collectFromImport_none (ls : List Str)
    (h : ∀ l ∈ ls, isImportLine l = false) :
    collectFromImport ls false = [] := by
  induction ls with
  | nil => rfl
  | cons l t ih =>
    rw [collectFromImport]
    rw [h l (List.mem_cons_self l t)]
    simp only [Bool.false_eq_true, if_false]
    exact ih fun x hx => h x (List.mem_cons_of_mem l hx)

/-! ## The script-body extractor claims -/

/-- C5: when the reply wraps a nonempty block of code lines between a
python-fence-open marker line and a fence-close marker line (and contains no
other fence-open marker), `_extract_code_from_response` returns exactly the
lines strictly between the two markers, in order and verbatim, with neither
marker line included. -/
theorem extractFencedBlock (pre code post : List Str) (openL closeL : Str)
    (hopen : isFenceOpenLine openL = true)
    (hclose : pyStrip closeL = str "```")
    (hpre : ∀ l ∈ pre, isFenceOpenLine l = false)
    (hcode : ∀ l ∈ code, isFenceOpenLine l = false ∧ (pyStrip l == str "```") = false)
    (hpost : ∀ l ∈ post, isFenceOpenLine l = false)
    (hne : code ≠ [])
    (hnl : ∀ l ∈ pre ++ (openL :: (code ++ (closeL :: post))), '\n' ∉ l)
    (hstrip : pyStrip (pyJoin (str "\n") (pre ++ (openL :: (code ++ (closeL :: post))))) =
      pyJoin (str "\n") (pre ++ (openL :: (code ++ (closeL :: post))))) :
    extractCode (pyJoin (str "\n") (pre ++ (openL :: (code ++ (closeL :: post))))) =
      pyJoin (str "\n") code := by
  have h1 : collectFenced (pre ++ (openL :: (code ++ (closeL :: post)))) false = code := by
    rw [collectFenced_skip pre _ hpre, collectFenced_open _ _ hopen,
        collectFenced_body _ _ hcode, collectFenced_close _ hclose,
        collectFenced_none _ hpost, List.append_nil]
  simp only [extractCode]
  rw [hstrip, splitNl_pyJoin (by simp) hnl, h1, if_neg hne, if_neg hne]

theorem extractFencedBlock_witness :
    extractCode (pyJoin (str "\n") ([str "Here:"] ++ (str "```python" ::
        ([str "import time", str "print(1)"] ++ (str "```" :: [str "Done."]))))) =
      pyJoin (str "\n") [str "import time", str "print(1)"] :=
  extractFencedBlock [str "Here:"] [str "import time", str "print(1)"] [str "Done."]
    (str "```python") (str "```") (by decide) (by decide) (by decide) (by decide)
    (by decide) (by decide) (by decide) (by decide)

/-- C6 counterexample: a reply carrying trailing whitespace (here a final
newline) and containing neither fences nor import-style lines is NOT returned
unchanged: the extractor operates on `response.strip()`, so the returned body
is the stripped reply. -/
theorem extractVerbatim_counterexample :
    ¬ extractCode (str "print(1)\n") = str "print(1)\n" ∧
    extractCode (str "print(1)\n") = str "print(1)" :=
  ⟨by decide, by decide⟩

/-- C6 amended: for every reply with no fence-open marker lines and no line
whose stripped form starts with `import ` or `from `, the extractor returns
the whitespace-stripped reply (`response.strip()`); in particular the reply
is returned entirely unchanged exactly when it has no leading or trailing
whitespace.  (A bare close-marker line is inert outside a block — the test at
line 92 also requires `in_code_block` — so only open markers need excluding.) -/
theorem extractVerbatim_amended (response : Str)
    (hfence : ∀ l ∈ splitNl (pyStrip response), isFenceOpenLine l = false)
    (himp : ∀ l ∈ splitNl (pyStrip response), isImportLine l = false) :
    extractCode response = pyStrip response ∧
    (pyStrip response = response → extractCode response = response) := by
  have h1 : collectFenced (splitNl (pyStrip response)) false = [] :=
    collectFenced_none _ hfence
  have h2 : collectFromImport (splitNl (pyStrip response)) false = [] :=
    collectFromImport_none _ himp
  have hmain : extractCode response = pyStrip response := by
    simp only [extractCode]
    rw [h1, if_pos rfl, h2, if_pos rfl, pyJoin_splitNl]
  exact ⟨hmain, fun h => by rw [hmain, h]⟩

theorem extractVerbatim_amended_witness :
    extractCode (str " hello\nworld ") = pyStrip (str " hello\nworld ") ∧
    (pyStrip (str " hello\nworld ") = str " hello\nworld " →
      extractCode (str " hello\nworld ") = str " hello\nworld ") :=
  extractVerbatim_amended (str " hello\nworld ") (by decide) (by decide)

theorem collectFenced_segs (segs : List FencedSeg)
    (hseg : ∀ s ∈ segs, isFenceOpenLine s.openLine = true ∧
      pyStrip s.closeLine = str "```" ∧
      (∀ l ∈ s.body, isFenceOpenLine l = false ∧ (pyStrip l == str "```") = false) ∧
      (∀ l ∈ s.after, isFenceOpenLine l = false)) :
    collectFenced (joinAll (segs.map renderSeg)) false =
      joinAll (segs.map (·.body)) := by
  induction segs with
  | nil => rfl
  | cons s t ih =>
    rcases hseg s (List.mem_cons_self s t) with ⟨h1, h2, h3, h4⟩
    rw [List.map_cons, joinAll, List.map_cons, joinAll]
    show collectFenced (renderSeg s ++ joinAll (t.map renderSeg)) false = _
    rw [show renderSeg s = s.openLine :: (s.body ++ (s.closeLine :: s.after)) from rfl]
    rw [List.cons_append, collectFenced_open _ _ h1, List.append_assoc,
        collectFenced_body _ _ h3, List.cons_append, collectFenced_close _ h2,
        collectFenced_skip _ _ h4]
    rw [ih fun x hx => hseg x (List.mem_cons_of_mem s hx)]

/-- C9: (a) a python-fence-open marker with no subsequent close marker makes
the extractor collect every line after the marker through the end of the
reply; (b) with several python-fenced segments, the output is the
concatenation of all segments' body lines in order, the text outside the
fences being excluded. -/
theorem extractFenced_implicit :
    (∀ (pre rest : List Str) (openL : Str),
      isFenceOpenLine openL = true →
      (∀ l ∈ pre, isFenceOpenLine l = false) →
      (∀ l ∈ rest, isFenceOpenLine l = false ∧ (pyStrip l == str "```") = false) →
      rest ≠ [] →
      (∀ l ∈ pre ++ (openL :: rest), '\n' ∉ l) →
      pyStrip (pyJoin (str "\n") (pre ++ (openL :: rest))) =
        pyJoin (str "\n") (pre ++ (openL :: rest)) →
      extractCode (pyJoin (str "\n") (pre ++ (openL :: rest))) = pyJoin (str "\n") rest) ∧
    (∀ (pre : List Str) (segs : List FencedSeg),
      (∀ l ∈ pre, isFenceOpenLine l = false) →
      (∀ s ∈ segs, isFenceOpenLine s.openLine = true ∧
        pyStrip s.closeLine = str "```" ∧
        (∀ l ∈ s.body, isFenceOpenLine l = false ∧ (pyStrip l == str "```") = false) ∧
        (∀ l ∈ s.after, isFenceOpenLine l = false)) →
      joinAll (segs.map (·.body)) ≠ [] →
      (∀ l ∈ pre ++ joinAll (segs.map renderSeg), '\n' ∉ l) →
      pyStrip (pyJoin (str "\n") (pre ++ joinAll (segs.map renderSeg))) =
        pyJoin (str "\n") (pre ++ joinAll (segs.map renderSeg)) →
      extractCode (pyJoin (str "\n") (pre ++ joinAll (segs.map renderSeg))) =
        pyJoin (str "\n") (joinAll (segs.map (·.body)))) := by
  constructor
  · intro pre rest openL hopen hpre hrest hne hnl hstrip
    have hrest1 : collectFenced rest true = rest := by
      have hb := collectFenced_body rest [] hrest
      rw [List.append_nil] at hb
      rw [hb, show collectFenced [] true = [] from rfl, List.append_nil]
    have h1 : collectFenced (pre ++ (openL :: rest)) false = rest := by
      rw [collectFenced_skip pre _ hpre, collectFenced_open _ _ hopen, hrest1]
    simp only [extractCode]
    rw [hstrip, splitNl_pyJoin (by simp) hnl, h1, if_neg hne, if_neg hne]
  · intro pre segs hpre hseg hne hnl hstrip
    have h1 : collectFenced (pre ++ joinAll (segs.map renderSeg)) false =
        joinAll (segs.map (·.body)) := by
      rw [collectFenced_skip pre _ hpre, collectFenced_segs segs hseg]
    have hlinesne : pre ++ joinAll (segs.map renderSeg) ≠ [] := by
      intro hcontra
      rcases List.append_eq_nil.1 hcontra with ⟨_, h2⟩
      cases segs with
      | nil => exact hne rfl
      | cons s t =>
        rw [List.map_cons, joinAll] at h2
        unfold renderSeg at h2
        simp at h2
    simp only [extractCode]
    rw [hstrip, splitNl_pyJoin hlinesne hnl, h1, if_neg hne, if_neg hne]

theorem extractFenced_implicit_witness :
    extractCode (pyJoin (str "\n") ([str "intro"] ++ (str "```python" ::
        [str "x = 1", str "y = 2"]))) = pyJoin (str "\n") [str "x = 1", str "y = 2"] ∧
    extractCode (pyJoin (str "\n") ([str "intro"] ++ joinAll
        (([⟨str "```python", [str "a = 1"], str "```", [str "mid"]⟩,
           ⟨str "```python", [str "b = 2"], str "```", [str "tail"]⟩] :
             List FencedSeg).map renderSeg))) =
      pyJoin (str "\n") (joinAll
        (([⟨str "```python", [str "a = 1"], str "```", [str "mid"]⟩,
           ⟨str "```python", [str "b = 2"], str "```", [str "tail"]⟩] :
             List FencedSeg).map (·.body))) :=
  ⟨extractFenced_implicit.1 [str "intro"] [str "x = 1", str "y = 2"] (str "```python")
      (by decide) (by decide) (by decide) (by decide) (by decide) (by decide),
   extractFenced_implicit.2 [str "intro"]
      [⟨str "```python", [str "a = 1"], str "```", [str "mid"]⟩,
       ⟨str "```python", [str "b = 2"], str "```", [str "tail"]⟩]
      (by decide) (by decide) (by decide) (by decide) (by decide)⟩

/-! ## Shape lemmas for the formatter sections -/

theorem descSection_shape (e : Elements) :
    ∀ s ∈ descSection e, s.head? = some 'S' := by
  intro s hs
  unfold descSection at hs
  rcases hm : e.metadata with _ | m
  · rw [hm] at hs
    simp at hs
  · rw [hm] at hs
    dsimp only at hs
    rcases hd : m.description with _ | d
    · rw [hd] at hs
      simp at hs
    · rw [hd] at hs
      simp only [List.mem_singleton] at hs
      subst hs
      rfl

theorem buttonsSection_shape (e : Elements) :
    ∀ s ∈ buttonsSection e, s = str "BUTTONS:" ∨ s.head? = some ' ' := by
  intro s hs
  unfold buttonsSection at hs
  rcases hb : e.buttons with _ | bs
  · rw [hb] at hs
    simp at hs
  · rw [hb] at hs
    cases bs with
    | nil => simp at hs
    | cons b bs' =>
      simp only [List.mem_cons] at hs
      rcases hs with rfl | hs
      · exact Or.inl rfl
      · right
        simp only [List.mem_map] at hs
        obtain ⟨p, _, rfl⟩ := hs
        rfl

theorem linksSection_shape (e : Elements) :
    ∀ s ∈ linksSection e, s = str "\nLINKS:" ∨ s.head? = some ' ' := by
  intro s hs
  unfold linksSection at hs
  rcases hb : e.links with _ | ls
  · rw [hb] at hs
    simp at hs
  · rw [hb] at hs
    cases ls with
    | nil => simp at hs
    | cons l ls' =>
      simp only [List.mem_cons] at hs
      rcases hs with rfl | hs
      · exact Or.inl rfl
      · right
        simp only [List.mem_map] at hs
        obtain ⟨p, _, rfl⟩ := hs
        rfl

theorem inputEntry_shape (i : Nat) (f : InputField) :
    ∀ s ∈ inputEntry i f, s.head? = some ' ' := by
  intro s hs
  simp only [inputEntry] at hs
  split at hs
  · simp only [List.mem_singleton] at hs
    subst hs
    rfl
  · split at hs
    · simp only [List.mem_singleton] at hs
      subst hs
      rfl
    · split at hs
      · simp only [List.mem_singleton] at hs
        subst hs
        rfl
      · simp at hs

theorem inputsSection_shape (e : Elements) :
    ∀ s ∈ inputsSection e, s = str "\nINPUT FIELDS:" ∨ s.head? = some ' ' := by
  intro s hs
  unfold inputsSection at hs
  rcases hb : e.inputs with _ | fs
  · rw [hb] at hs
    simp at hs
  · rw [hb] at hs
    cases fs with
    | nil => simp at hs
    | cons f fs' =>
      simp only [List.mem_cons] at hs
      rcases hs with rfl | hs
      · exact Or.inl rfl
      · right
        rcases mem_joinAll.1 hs with ⟨l, hl, hsl⟩
        simp only [List.mem_map] at hl
        obtain ⟨p, _, rfl⟩ := hl
        exact inputEntry_shape p.1 p.2 s hsl

theorem formEntry_shape (i : Nat) (f : Form) :
    ∀ s ∈ formEntry i f, s.head? = some ' ' := by
  intro s hs
  unfold formEntry at hs
  simp only [List.mem_cons] at hs
  rcases hs with rfl | hs
  · rfl
  · rcases hi : f.inputs with _ | is
    · rw [hi] at hs
      simp at hs
    · rw [hi] at hs
      cases is with
      | nil => simp at hs
      | cons i0 is' =>
        simp only [List.mem_map] at hs
        obtain ⟨p, _, rfl⟩ := hs
        rfl

theorem formsSection_shape (e : Elements) :
    ∀ s ∈ formsSection e, s = str "\nFORMS:" ∨ s.head? = some ' ' := by
  intro s hs
  unfold formsSection at hs
  rcases hb : e.forms with _ | fs
  · rw [hb] at hs
    simp at hs
  · rw [hb] at hs
    cases fs with
    | nil => simp at hs
    | cons f fs' =>
      simp only [List.mem_cons] at hs
      rcases hs with rfl | hs
      · exact Or.inl rfl
      · right
        rcases mem_joinAll.1 hs with ⟨l, hl, hsl⟩
        simp only [List.mem_map] at hl
        obtain ⟨p, _, rfl⟩ := hl
        exact formEntry_shape p.1 p.2 s hsl

theorem headersSection_shape (ps : PageStructure) :
    ∀ s ∈ headersSection ps, s = str "\nPAGE HEADERS:" ∨ s.head? = some ' ' := by
  intro s hs
  unfold headersSection at hs
  rcases hb : ps.headers with _ | hsq
  · rw [hb] at hs
    simp at hs
  · rw [hb] at hs
    cases hsq with
    | nil => simp at hs
    | cons h0 hs' =>
      simp only [List.mem_cons] at hs
      rcases hs with rfl | hs
      · exact Or.inl rfl
      · right
        simp only [List.mem_map] at hs
        obtain ⟨x, _, rfl⟩ := hs
        rfl

theorem navBlock_shape (nav : NavMenu) :
    ∀ s ∈ navBlock nav, s.head? = some ' ' := by
  intro s hs
  simp only [navBlock] at hs
  simp only [List.mem_cons, List.mem_append] at hs
  rcases hs with rfl | hs | hs
  · rfl
  · simp only [List.mem_map] at hs
    obtain ⟨p, _, rfl⟩ := hs
    rfl
  · split at hs
    · simp only [List.mem_singleton] at hs
      subst hs
      rfl
    · simp at hs

theorem navSection_shape (ps : PageStructure) :
    ∀ s ∈ navSection ps, s = str "\nNAVIGATION MENUS:" ∨ s.head? = some ' ' := by
  intro s hs
  unfold navSection at hs
  rcases hb : ps.navigation with _ | ns
  · rw [hb] at hs
    simp at hs
  · rw [hb] at hs
    cases ns with
    | nil => simp at hs
    | cons n ns' =>
      simp only [List.mem_cons] at hs
      rcases hs with rfl | hs
      · exact Or.inl rfl
      · right
        rcases mem_joinAll.1 hs with ⟨l, hl, hsl⟩
        simp only [List.mem_map] at hl
        obtain ⟨x, _, rfl⟩ := hl
        exact navBlock_shape x s hsl

theorem pageStructureSection_shape (e : Elements) :
    ∀ s ∈ pageStructureSection e,
      s = str "\nPAGE HEADERS:" ∨ s = str "\nNAVIGATION MENUS:" ∨ s.head? = some ' ' := by
  intro s hs
  unfold pageStructureSection at hs
  rcases hm : e.metadata with _ | m
  · rw [hm] at hs
    simp at hs
  · rw [hm] at hs
    dsimp only at hs
    rcases hp : m.page_structure with _ | ps
    · rw [hp] at hs
      simp at hs
    · rw [hp] at hs
      rcases List.mem_append.1 hs with hs | hs
      · rcases headersSection_shape ps s hs with h | h
        · exact Or.inl h
        · exact Or.inr (Or.inr h)
      · rcases navSection_shape ps s hs with h | h
        · exact Or.inr (Or.inl h)
        · exact Or.inr (Or.inr h)

/-- C7: the formatter omits a category's header line entirely when that
category's sequence is empty (all six categories: buttons, links, input
fields, forms, page headers, navigation menus); a select field with more than
five options is rendered with only its first five option texts followed by
the suffix `, ... (N more)` where `N` is the option count minus five; and a
navigation menu with more than five items displays only its first five items
followed by the line `    ... (N more items)` with `N` the item count minus
five. -/
theorem formatterDigest :
    (∀ e : Elements, (e.buttons = none ∨ e.buttons = some []) →
      str "BUTTONS:" ∉ formatElementsList e) ∧
    (∀ e : Elements, (e.links = none ∨ e.links = some []) →
      str "\nLINKS:" ∉ formatElementsList e) ∧
    (∀ e : Elements, (e.inputs = none ∨ e.inputs = some []) →
      str "\nINPUT FIELDS:" ∉ formatElementsList e) ∧
    (∀ e : Elements, (e.forms = none ∨ e.forms = some []) →
      str "\nFORMS:" ∉ formatElementsList e) ∧
    (∀ e : Elements, (∀ m ps, e.metadata = some m → m.page_structure = some ps →
        ps.headers = none ∨ ps.headers = some []) →
      str "\nPAGE HEADERS:" ∉ formatElementsList e) ∧
    (∀ e : Elements, (∀ m ps, e.metadata = some m → m.page_structure = some ps →
        ps.navigation = none ∨ ps.navigation = some []) →
      str "\nNAVIGATION MENUS:" ∉ formatElementsList e) ∧
    (∀ (e : Elements) (xs : List InputField) (idx : Nat) (f : InputField),
      e.inputs = some xs → (idx, f) ∈ pyEnum 1 xs →
      f.element_type = some (str "select") → 5 < (f.options.getD []).length →
      inputEntry idx f = [str "  " ++ (natToStr idx ++ (str ". select dropdown (name=" ++
        (f.name.getD (str "[No name]") ++ (str ", options: " ++
        ((pyJoin (str ", ") (((f.options.getD []).take 5).map fun o => o.text.getD (str "Option")) ++
          (str ", ... (" ++ (natToStr ((f.options.getD []).length - 5) ++ str " more)"))) ++
         str ")")))))] ∧
      (str "  " ++ (natToStr idx ++ (str ". select dropdown (name=" ++
        (f.name.getD (str "[No name]") ++ (str ", options: " ++
        ((pyJoin (str ", ") (((f.options.getD []).take 5).map fun o => o.text.getD (str "Option")) ++
          (str ", ... (" ++ (natToStr ((f.options.getD []).length - 5) ++ str " more)"))) ++
         str ")")))))) ∈ formatElementsList e) ∧
    (∀ (e : Elements) (m : Metadata) (ps : PageStructure) (navs : List NavMenu)
        (nav : NavMenu) (items : List NavItem),
      e.metadata = some m → m.page_structure = some ps → ps.navigation = some navs →
      nav ∈ navs → nav.items = some items → 5 < items.length →
      navBlock nav = (str "  - Navigation (id=" ++ (nav.id.getD (str "[No ID]") ++
        (str ", " ++ (natToStr items.length ++ str " items)")))) ::
        (((pyEnum 1 (items.take 5)).map fun p => navItemEntry p.1 p.2) ++
         [str "    ... (" ++ (natToStr (items.length - 5) ++ str " more items)")]) ∧
      (str "    ... (" ++ (natToStr (items.length - 5) ++ str " more items)")) ∈
        formatElementsList e) := by
  refine ⟨?_, ?_, ?_, ?_, ?_, ?_, ?_, ?_⟩
  · intro e hempty hmem
    simp only [formatElementsList, List.mem_append] at hmem
    rcases hmem with ((((h | h) | h) | h) | h) | h
    · exact absurd (descSection_shape e _ h) (by decide)
    · have hz : buttonsSection e = [] := by
        rcases hempty with h' | h' <;> simp [buttonsSection, h']
      rw [hz] at h
      simp at h
    · rcases linksSection_shape e _ h with h' | h' <;> exact absurd h' (by decide)
    · rcases inputsSection_shape e _ h with h' | h' <;> exact absurd h' (by decide)
    · rcases formsSection_shape e _ h with h' | h' <;> exact absurd h' (by decide)
    · rcases pageStructureSection_shape e _ h with h' | h' | h' <;> exact absurd h' (by decide)
  · intro e hempty hmem
    simp only [formatElementsList, List.mem_append] at hmem
    rcases hmem with ((((h | h) | h) | h) | h) | h
    · exact absurd (descSection_shape e _ h) (by decide)
    · rcases buttonsSection_shape e _ h with h' | h' <;> exact absurd h' (by decide)
    · have hz : linksSection e = [] := by
        rcases hempty with h' | h' <;> simp [linksSection, h']
      rw [hz] at h
      simp at h
    · rcases inputsSection_shape e _ h with h' | h' <;> exact absurd h' (by decide)
    · rcases formsSection_shape e _ h with h' | h' <;> exact absurd h' (by decide)
    · rcases pageStructureSection_shape e _ h with h' | h' | h' <;> exact absurd h' (by decide)
  · intro e hempty hmem
    simp only [formatElementsList, List.mem_append] at hmem
    rcases hmem with ((((h | h) | h) | h) | h) | h
    · exact absurd (descSection_shape e _ h) (by decide)
    · rcases buttonsSection_shape e _ h with h' | h' <;> exact absurd h' (by decide)
    · rcases linksSection_shape e _ h with h' | h' <;> exact absurd h' (by decide)
    · have hz : inputsSection e = [] := by
        rcases hempty with h' | h' <;> simp [inputsSection, h']
      rw [hz] at h
      simp at h
    · rcases formsSection_shape e _ h with h' | h' <;> exact absurd h' (by decide)
    · rcases pageStructureSection_shape e _ h with h' | h' | h' <;> exact absurd h' (by decide)
  · intro e hempty hmem
    simp only [formatElementsList, List.mem_append] at hmem
    rcases hmem with ((((h | h) | h) | h) | h) | h
    · exact absurd (descSection_shape e _ h) (by decide)
    · rcases buttonsSection_shape e _ h with h' | h' <;> exact absurd h' (by decide)
    · rcases linksSection_shape e _ h with h' | h' <;> exact absurd h' (by decide)
    · rcases inputsSection_shape e _ h with h' | h' <;> exact absurd h' (by decide)
    · have hz : formsSection e = [] := by
        rcases hempty with h' | h' <;> simp [formsSection, h']
      rw [hz] at h
      simp at h
    · rcases pageStructureSection_shape e _ h with h' | h' | h' <;> exact absurd h' (by decide)
  · intro e hempty hmem
    simp only [formatElementsList, List.mem_append] at hmem
    rcases hmem with ((((h | h) | h) | h) | h) | h
    · exact absurd (descSection_shape e _ h) (by decide)
    · rcases buttonsSection_shape e _ h with h' | h' <;> exact absurd h' (by decide)
    · rcases linksSection_shape e _ h with h' | h' <;> exact absurd h' (by decide)
    · rcases inputsSection_shape e _ h with h' | h' <;> exact absurd h' (by decide)
    · rcases formsSection_shape e _ h with h' | h' <;> exact absurd h' (by decide)
    · unfold pageStructureSection at h
      rcases hm : e.metadata with _ | m
      · rw [hm] at h
        simp at h
      · rw [hm] at h
        dsimp only at h
        rcases hp : m.page_structure with _ | ps
        · rw [hp] at h
          simp at h
        · rw [hp] at h
          rcases List.mem_append.1 h with h | h
          · have hz : headersSection ps = [] := by
              rcases hempty m ps hm hp with h' | h' <;> simp [headersSection, h']
            rw [hz] at h
            simp at h
          · rcases navSection_shape ps _ h with h' | h' <;> exact absurd h' (by decide)
  · intro e hempty hmem
    simp only [formatElementsList, List.mem_append] at hmem
    rcases hmem with ((((h | h) | h) | h) | h) | h
    · exact absurd (descSection_shape e _ h) (by decide)
    · rcases buttonsSection_shape e _ h with h' | h' <;> exact absurd h' (by decide)
    · rcases linksSection_shape e _ h with h' | h' <;> exact absurd h' (by decide)
    · rcases inputsSection_shape e _ h with h' | h' <;> exact absurd h' (by decide)
    · rcases formsSection_shape e _ h with h' | h' <;> exact absurd h' (by decide)
    · unfold pageStructureSection at h
      rcases hm : e.metadata with _ | m
      · rw [hm] at h
        simp at h
      · rw [hm] at h
        dsimp only at h
        rcases hp : m.page_structure with _ | ps
        · rw [hp] at h
          simp at h
        · rw [hp] at h
          rcases List.mem_append.1 h with h | h
          · rcases headersSection_shape ps _ h with h' | h' <;> exact absurd h' (by decide)
          · have hz : navSection ps = [] := by
              rcases hempty m ps hm hp with h' | h' <;> simp [navSection, h']
            rw [hz] at h
            simp at h
  · intro e xs idx f hxs hmem hsel hlen
    have hgetd : f.element_type.getD (str "input") = str "select" := by
      rw [hsel]
      rfl
    have hentry : inputEntry idx f = [str "  " ++ (natToStr idx ++ (str ". select dropdown (name=" ++
        (f.name.getD (str "[No name]") ++ (str ", options: " ++
        ((pyJoin (str ", ") (((f.options.getD []).take 5).map fun o => o.text.getD (str "Option")) ++
          (str ", ... (" ++ (natToStr ((f.options.getD []).length - 5) ++ str " more)"))) ++
         str ")")))))] := by
      simp only [inputEntry, hgetd]
      rw [if_neg (by decide), if_neg (by decide)]
      simp only [if_true]
      rw [if_pos hlen]
    refine ⟨hentry, ?_⟩
    obtain ⟨x, xs', rfl⟩ : ∃ x xs', xs = x :: xs' := by
      cases xs with
      | nil => simp [pyEnum] at hmem
      | cons x xs' => exact ⟨x, xs', rfl⟩
    have hsec : inputsSection e =
        str "\nINPUT FIELDS:" :: joinAll ((pyEnum 1 (x :: xs')).map fun p => inputEntry p.1 p.2) := by
      unfold inputsSection
      rw [hxs]
    have hmem2 : (str "  " ++ (natToStr idx ++ (str ". select dropdown (name=" ++
        (f.name.getD (str "[No name]") ++ (str ", options: " ++
        ((pyJoin (str ", ") (((f.options.getD []).take 5).map fun o => o.text.getD (str "Option")) ++
          (str ", ... (" ++ (natToStr ((f.options.getD []).length - 5) ++ str " more)"))) ++
         str ")")))))) ∈ inputsSection e := by
      rw [hsec]
      refine List.mem_cons_of_mem _ (mem_joinAll.2 ⟨inputEntry idx f, ?_, ?_⟩)
      · exact List.mem_map.2 ⟨(idx, f), hmem, rfl⟩
      · rw [hentry]
        simp
    simp only [formatElementsList, List.mem_append]
    exact Or.inl (Or.inl (Or.inr hmem2))
  · intro e m ps navs nav items hm hp hn hnav hitems hlen
    have hgetd : nav.items.getD [] = items := by
      rw [hitems]
      rfl
    have hblock : navBlock nav = (str "  - Navigation (id=" ++ (nav.id.getD (str "[No ID]") ++
        (str ", " ++ (natToStr items.length ++ str " items)")))) ::
        (((pyEnum 1 (items.take 5)).map fun p => navItemEntry p.1 p.2) ++
         [str "    ... (" ++ (natToStr (items.length - 5) ++ str " more items)")]) := by
      simp only [navBlock, hgetd]
      rw [if_pos hlen]
    refine ⟨hblock, ?_⟩
    obtain ⟨n, ns', rfl⟩ : ∃ n ns', navs = n :: ns' := by
      cases navs with
      | nil => simp at hnav
      | cons n ns' => exact ⟨n, ns', rfl⟩
    have hsec : navSection ps = str "\nNAVIGATION MENUS:" :: joinAll ((n :: ns').map navBlock) := by
      unfold navSection
      rw [hn]
    have hmem2 : (str "    ... (" ++ (natToStr (items.length - 5) ++ str " more items)")) ∈
        navSection ps := by
      rw [hsec]
      refine List.mem_cons_of_mem _ (mem_joinAll.2 ⟨navBlock nav, List.mem_map.2 ⟨nav, hnav, rfl⟩, ?_⟩)
      rw [hblock]
      simp
    have hps : pageStructureSection e = headersSection ps ++ navSection ps := by
      unfold pageStructureSection
      rw [hm]
      dsimp only
      rw [hp]
    simp only [formatElementsList, List.mem_append]
    right
    rw [hps]
    exact List.mem_append_right _ hmem2

theorem formatterDigest_witness :
    (str "BUTTONS:" ∉ formatElementsList ⟨none, none, none, none, none⟩) ∧
    (str "\nLINKS:" ∉ formatElementsList ⟨none, none, none, none, none⟩) ∧
    (str "\nINPUT FIELDS:" ∉ formatElementsList ⟨none, none, none, none, none⟩) ∧
    (str "\nFORMS:" ∉ formatElementsList ⟨none, none, none, none, none⟩) ∧
    (str "\nPAGE HEADERS:" ∉ formatElementsList ⟨none, none, none, none, none⟩) ∧
    (str "\nNAVIGATION MENUS:" ∉ formatElementsList ⟨none, none, none, none, none⟩) ∧
    (inputEntry 1 selFieldW =
      [str "  1. select dropdown (name=[No name], options: o1, o2, o3, o4, o5, ... (1 more))"] ∧
     str "  1. select dropdown (name=[No name], options: o1, o2, o3, o4, o5, ... (1 more))" ∈
       formatElementsList elementsSelW) ∧
    (navBlock navMenuW =
      [str "  - Navigation (id=[No ID], 6 items)",
       str "    1. i1 (href=[No href])", str "    2. i2 (href=[No href])",
       str "    3. i3 (href=[No href])", str "    4. i4 (href=[No href])",
       str "    5. i5 (href=[No href])", str "    ... (1 more items)"] ∧
     str "    ... (1 more items)" ∈ formatElementsList elementsNavW) := by
  obtain ⟨h1, h2, h3, h4, h5, h6, h7, h8⟩ := formatterDigest
  refine ⟨h1 ⟨none, none, none, none, none⟩ (Or.inl rfl),
          h2 ⟨none, none, none, none, none⟩ (Or.inl rfl),
          h3 ⟨none, none, none, none, none⟩ (Or.inl rfl),
          h4 ⟨none, none, none, none, none⟩ (Or.inl rfl),
          h5 ⟨none, none, none, none, none⟩ (fun m ps hm _ => Option.noConfusion hm),
          h6 ⟨none, none, none, none, none⟩ (fun m ps hm _ => Option.noConfusion hm),
          ⟨?_, ?_⟩, ⟨?_, ?_⟩⟩
  · exact (h7 elementsSelW [selFieldW] 1 selFieldW rfl (by decide) rfl (by decide)).1.trans
      (by decide)
  · decide
  · exact (h8 elementsNavW ⟨none, some ⟨none, some [navMenuW]⟩⟩ ⟨none, some [navMenuW]⟩
      [navMenuW] navMenuW
      [⟨some (str "i1"), none⟩, ⟨some (str "i2"), none⟩, ⟨some (str "i3"), none⟩,
       ⟨some (str "i4"), none⟩, ⟨some (str "i5"), none⟩, ⟨some (str "i6"), none⟩]
      rfl rfl rfl (by decide) rfl (by decide)).1.trans (by decide)
  · decide

theorem head?_append_left {l : List α} (m : List α) (h : l ≠ []) :
    (l ++ m).head? = l.head? := by
  cases l with
  | nil => exact absurd rfl h
  | cons a t => rfl

theorem getLast?_append_right (l : List α) {m : List α} (h : m ≠ []) :
    (l ++ m).getLast? = m.getLast? := by
  rw [← List.head?_reverse, ← List.head?_reverse (l := m), List.reverse_append]
  exact head?_append_left _ (by simpa using h)

theorem getLast?_some_of_ne_nil {l : List α} (h : l ≠ []) :
    ∃ c, l.getLast? = some c := by
  cases hr : l.reverse with
  | nil =>
    have h2 := congrArg List.reverse hr
    simp at h2
    exact absurd h2 h
  | cons c s =>
    refine ⟨c, ?_⟩
    rw [← List.head?_reverse, hr]
    rfl

theorem mem_of_getLast? {l : List α} {a : α} (h : l.getLast? = some a) : a ∈ l := by
  induction l with
  | nil => simp at h
  | cons x t ih =>
    cases t with
    | nil =>
      simp at h
      simp [h]
    | cons y u =>
      rw [List.getLast?_cons_cons] at h
      exact List.mem_cons_of_mem x (ih h)

/-- The parser's transition on a well-formed header line. -/
theorem stepLine_header (acc : List TestCase) (cur : Option TestCase)
    (sec : Option Sect) (idStr scen : Str)
    (hid1 : pyStartsWith idStr (str "Test Case") = true)
    (hid2 : hasChar ':' idStr = false)
    (hid3 : pyStrip idStr = idStr)
    (hline : pyStrip (idStr ++ (':' :: scen)) = idStr ++ (':' :: scen)) :
    stepLine ⟨acc, cur, sec⟩ (idStr ++ (':' :: scen)) =
      ⟨acc ++ flushOpt cur, some ⟨idStr, pyStrip scen, [], []⟩, none⟩ := by
  have hne : idStr ++ (':' :: scen) ≠ [] := by cases idStr <;> simp
  simp only [stepLine, hline]
  rw [if_neg hne, if_pos (isHeaderLine_header idStr scen hid1)]
  rw [pySplit1_boundary scen hid2]
  simp [hid3]

/-- The parser's transition on the literal `Steps to Execute` keyword line. -/
theorem stepLine_stepsKw (acc : List TestCase) (cur : Option TestCase)
    (sec : Option Sect) :
    stepLine ⟨acc, cur, sec⟩ (str "Steps to Execute") = ⟨acc, cur, some .steps⟩ := by
  simp only [stepLine]
  rw [show pyStrip (str "Steps to Execute") = str "Steps to Execute" from by decide]
  rw [if_neg (by decide), if_neg (by decide), if_pos (by decide)]

/-- The parser's transition on the literal `Expected Result` keyword line. -/
theorem stepLine_expectedKw (acc : List TestCase) (cur : Option TestCase)
    (sec : Option Sect) :
    stepLine ⟨acc, cur, sec⟩ (str "Expected Result") = ⟨acc, cur, some .expected⟩ := by
  simp only [stepLine]
  rw [show pyStrip (str "Expected Result") = str "Expected Result" from by decide]
  rw [if_neg (by decide), if_neg (by decide), if_neg (by decide), if_pos (by decide)]

/-- A well-formed numbered step line appends exactly its text, with the
label and the `". "` separator stripped, to the open record's steps. -/
theorem stepLine_numbered (acc : List TestCase) (tc : TestCase) (p : Str × Str)
    (hwf : WFStepPair p) :
    stepLine ⟨acc, some tc, some .steps⟩ (renderStep p) =
      ⟨acc, some { tc with steps := tc.steps ++ [p.2] }, some .steps⟩ := by
  obtain ⟨p1, p2⟩ := p
  obtain ⟨hp1, hdig, hp2strip, hp2ne⟩ := hwf
  obtain ⟨c, t, rfl⟩ : ∃ c t, p1 = c :: t := by
    cases p1 with
    | nil => exact absurd rfl hp1
    | cons c t => exact ⟨c, t, rfl⟩
  obtain ⟨hcdig, hcsp, hclow, hcT, hcdot, hcs, hce, hcnl⟩ :=
    digitChar_spec (hdig c (List.mem_cons_self c t))
  have hline_eq : renderStep (c :: t, p2) = c :: (t ++ ('.' :: ' ' :: p2)) := by
    simp [renderStep]
  have hstrip : pyStrip (renderStep (c :: t, p2)) = renderStep (c :: t, p2) := by
    apply pyStrip_eq_self
    · intro c' hc'
      rw [hline_eq] at hc'
      simp only [List.head?_cons, Option.some.injEq] at hc'
      rw [← hc']
      exact hcsp
    · intro c' hc'
      rw [show renderStep (c :: t, p2) = (c :: t) ++ (['.', ' '] ++ p2) from rfl] at hc'
      rw [getLast?_append_right _ (by simp), getLast?_append_right _ hp2ne] at hc'
      exact stripFixed_getLast hp2strip hc'
  have hneq : renderStep (c :: t, p2) ≠ [] := by
    rw [hline_eq]
    simp
  have hnothdr : isHeaderLine (renderStep (c :: t, p2)) = false := by
    rw [hline_eq]
    exact isHeaderLine_cons_false hcT
  have hnosteps : isStepsHeader (renderStep (c :: t, p2)) = false := by
    rw [hline_eq]
    apply isStepsHeader_cons_false
    rw [hclow]
    exact hcs
  have hnoexp : isExpectedHeader (renderStep (c :: t, p2)) = false := by
    rw [hline_eq]
    apply isExpectedHeader_cons_false
    rw [hclow]
    exact hce
  have hheaddig : headIsDigit (renderStep (c :: t, p2)) = true := by
    rw [hline_eq]
    exact hcdig
  have hsub : hasSub (str ". ") (renderStep (c :: t, p2)) = true :=
    hasSub_append_mid (str ". ") (c :: t) p2
  have htake : takeUntilSub (str ". ") (renderStep (c :: t, p2)) = c :: t :=
    takeUntilSub_boundary p2 (fun c' hc' => (digitChar_spec (hdig c' hc')).2.2.2.2.1)
  have hdrop : (renderStep (c :: t, p2)).drop ((c :: t).length + 2) = p2 := by
    show ((c :: t) ++ ('.' :: ' ' :: p2)).drop ((c :: t).length + 2) = p2
    rw [drop_length_append]
    rfl
  simp only [stepLine, hstrip]
  rw [if_neg hneq]
  rw [if_neg (show ¬isHeaderLine (renderStep (c :: t, p2)) = true by simp [hnothdr])]
  rw [if_neg (show ¬isStepsHeader (renderStep (c :: t, p2)) = true by simp [hnosteps])]
  rw [if_neg (show ¬isExpectedHeader (renderStep (c :: t, p2)) = true by simp [hnoexp])]
  rw [if_pos (show (headIsDigit (renderStep (c :: t, p2)) &&
    hasSub (str ". ") (renderStep (c :: t, p2))) = true by rw [hheaddig, hsub]; rfl)]
  rw [htake, hdrop, hp2strip]

/-- A plain content line in the expected-result section is space-appended to
the accumulated expected text (or becomes it when that text is empty). -/
theorem stepLine_content_expected (acc : List TestCase) (tc : TestCase) (l : Str)
    (hwf : WFContentLine l) :
    stepLine ⟨acc, some tc, some .expected⟩ l =
      ⟨acc, some { tc with expected :=
        if tc.expected = [] then l else tc.expected ++ str " " ++ l },
       some .expected⟩ := by
  obtain ⟨h1, h2, h3, h4, h5⟩ := hwf
  simp only [stepLine, h1]
  rw [if_neg h2]
  rw [if_neg (show ¬isHeaderLine l = true by simp [h3])]
  rw [if_neg (show ¬isStepsHeader l = true by simp [h4])]
  rw [if_neg (show ¬isExpectedHeader l = true by simp [h5])]
  by_cases he : tc.expected = [] <;> simp [he]

/-! ## Folding whole sections and blocks -/

theorem runLines_append (st : ParseSt) (l1 l2 : List Str) :
    runLines st (l1 ++ l2) = runLines (runLines st l1) l2 := by
  simp [runLines, List.foldl_append]

theorem runLines_steps (ps : List (Str × Str)) (acc : List TestCase) (tc : TestCase)
    (h : ∀ p ∈ ps, WFStepPair p) :
    runLines ⟨acc, some tc, some .steps⟩ (ps.map renderStep) =
      ⟨acc, some { tc with steps := tc.steps ++ ps.map (·.2) }, some .steps⟩ := by
  induction ps generalizing tc with
  | nil => simp [runLines]
  | cons p ps' ih =>
    rw [List.map_cons]
    show runLines (stepLine ⟨acc, some tc, some .steps⟩ (renderStep p)) (ps'.map renderStep) = _
    rw [stepLine_numbered acc tc p (h p (by simp))]
    rw [ih _ fun q hq => h q (by simp [hq])]
    simp [List.append_assoc]

theorem runLines_expected_glue (es : List Str) (acc : List TestCase) (tc : TestCase)
    (h : ∀ l ∈ es, WFContentLine l) (hne : tc.expected ≠ []) :
    runLines ⟨acc, some tc, some .expected⟩ es =
      ⟨acc, some { tc with expected :=
        tc.expected ++ joinAll (es.map fun l => str " " ++ l) }, some .expected⟩ := by
  induction es generalizing tc with
  | nil => simp [runLines, joinAll]
  | cons l es' ih =>
    show runLines (stepLine ⟨acc, some tc, some .expected⟩ l) es' = _
    rw [stepLine_content_expected acc tc l (h l (by simp))]
    rw [if_neg hne]
    rw [ih { tc with expected := tc.expected ++ str " " ++ l }
      (fun x hx => h x (by simp [hx]))
      (by
        intro hcon
        rcases List.append_eq_nil.1 hcon with ⟨h1, _⟩
        rcases List.append_eq_nil.1 h1 with ⟨_, h2⟩
        exact absurd h2 (by decide))]
    simp [joinAll, List.append_assoc]

theorem pyJoin_eq_glue (sep l : Str) (ls : List Str) :
    pyJoin sep (l :: ls) = l ++ joinAll (ls.map fun x => sep ++ x) := by
  induction ls generalizing l with
  | nil => simp [pyJoin, joinAll]
  | cons y u ih =>
    show l ++ sep ++ pyJoin sep (y :: u) = _
    rw [ih y]
    simp [joinAll, List.append_assoc]

theorem runLines_expected (es : List Str) (acc : List TestCase) (tc : TestCase)
    (h : ∀ l ∈ es, WFContentLine l) (hempty : tc.expected = []) :
    runLines ⟨acc, some tc, some .expected⟩ es =
      ⟨acc, some { tc with expected := pyJoin (str " ") es }, some .expected⟩ := by
  cases es with
  | nil =>
    show (⟨acc, some tc, some .expected⟩ : ParseSt) = _
    rw [show pyJoin (str " ") ([] : List Str) = [] from rfl, ← hempty]
  | cons l es' =>
    show runLines (stepLine ⟨acc, some tc, some .expected⟩ l) es' = _
    rw [stepLine_content_expected acc tc l (h l (by simp))]
    rw [if_pos hempty]
    rw [runLines_expected_glue es' acc _ (fun x hx => h x (by simp [hx])) (h l (by simp)).2.1]
    rw [pyJoin_eq_glue]

theorem runLines_block (b : RawBlock) (hwf : WFBlock b) (acc : List TestCase)
    (cur : Option TestCase) (sec : Option Sect) :
    runLines ⟨acc, cur, sec⟩ (renderBlock b) =
      ⟨acc ++ flushOpt cur, some (blockRecord b), some .expected⟩ := by
  obtain ⟨h1, h2, h3, h4, h5, h6⟩ := hwf
  show runLines (stepLine ⟨acc, cur, sec⟩ (b.id ++ (':' :: b.scen)))
    (str "Steps to Execute" ::
      (b.steps.map renderStep ++ (str "Expected Result" :: b.expLines))) = _
  rw [stepLine_header acc cur sec b.id b.scen h1 h2 h3 h4]
  show runLines (stepLine _ (str "Steps to Execute"))
    (b.steps.map renderStep ++ (str "Expected Result" :: b.expLines)) = _
  rw [stepLine_stepsKw]
  rw [runLines_append]
  rw [runLines_steps b.steps _ _ h5]
  show runLines (stepLine _ (str "Expected Result")) b.expLines = _
  rw [stepLine_expectedKw]
  rw [runLines_expected b.expLines _ _ h6 rfl]
  simp [blockRecord]

theorem processBlocks (blocks : List RawBlock) :
    ∀ (acc : List TestCase) (cur : Option TestCase) (sec : Option Sect),
    (∀ b ∈ blocks, WFBlock b) → blocks ≠ [] →
    (runLines ⟨acc, cur, sec⟩ (joinAll (blocks.map renderBlock))).acc ++
      flushOpt (runLines ⟨acc, cur, sec⟩ (joinAll (blocks.map renderBlock))).current =
      acc ++ flushOpt cur ++ blocks.map blockRecord := by
  induction blocks with
  | nil =>
    intro _ _ _ _ hne
    exact absurd rfl hne
  | cons b bs ih =>
    intro acc cur sec hwf _
    rw [List.map_cons, joinAll, runLines_append, runLines_block b (hwf b (by simp)) acc cur sec]
    cases bs with
    | nil =>
      show (runLines _ (joinAll ([] : List (List Str)))).acc ++ _ = _
      simp [runLines, joinAll, flushOpt, List.append_assoc]
    | cons b2 bs2 =>
      rw [ih (acc ++ flushOpt cur) (some (blockRecord b)) (some .expected)
        (fun x hx => hwf x (by simp [hx])) (by simp)]
      simp [flushOpt, List.append_assoc]

/-! ## Helpers for the saved-steps serialization -/

theorem append_ne_nil_left {a : List α} (b : List α) (h : a ≠ []) : a ++ b ≠ [] := by
  cases a with
  | nil => exact absurd rfl h
  | cons x t => simp

theorem head?_mem {l : List α} {a : α} (h : l.head? = some a) : a ∈ l := by
  cases l with
  | nil => simp at h
  | cons x t =>
    simp at h
    simp [h]

theorem pyJoin_ne_nil (sep : Str) {ls : List Str}
    (hall : ∀ x ∈ ls, x ≠ []) (hne : ls ≠ []) : pyJoin sep ls ≠ [] := by
  cases ls with
  | nil => exact absurd rfl hne
  | cons x t =>
    cases t with
    | nil => exact hall x (by simp)
    | cons y u =>
      show x ++ sep ++ pyJoin sep (y :: u) ≠ []
      exact append_ne_nil_left _ (append_ne_nil_left _ (hall x (by simp)))

theorem pyJoin_head?_left (sep : Str) {a : Str} (ls : List Str) (h : a ≠ []) :
    (pyJoin sep (a :: ls)).head? = a.head? := by
  cases ls with
  | nil => rfl
  | cons b u =>
    show ((a ++ sep) ++ pyJoin sep (b :: u)).head? = a.head?
    rw [head?_append_left _ (append_ne_nil_left sep h), head?_append_left sep h]

theorem pyJoin_getLast?_last (sep : Str) : ∀ {ls : List Str} {a : Str},
    ls.getLast? = some a → (∀ x ∈ ls, x ≠ []) →
    (pyJoin sep ls).getLast? = a.getLast? := by
  intro ls
  induction ls with
  | nil =>
    intro a h _
    simp at h
  | cons x t ih =>
    intro a hlast hall
    cases t with
    | nil =>
      simp at hlast
      subst hlast
      rfl
    | cons y u =>
      rw [List.getLast?_cons_cons] at hlast
      show ((x ++ sep) ++ pyJoin sep (y :: u)).getLast? = _
      rw [getLast?_append_right _
        (pyJoin_ne_nil sep (fun z hz => hall z (List.mem_cons_of_mem x hz)) (by simp))]
      exact ih hlast fun z hz => hall z (List.mem_cons_of_mem x hz)

theorem joinAll_map_append_nl2 {α : Type} (g f : α → Str)
    (hgf : ∀ x, g x = f x ++ ['\n']) :
    ∀ {l : List α}, l ≠ [] →
    joinAll (l.map g) = pyJoin (str "\n") (l.map f) ++ ['\n'] := by
  intro l
  induction l with
  | nil => intro h; exact absurd rfl h
  | cons a t ih =>
    intro _
    cases t with
    | nil => simp [joinAll, pyJoin, hgf]
    | cons b u =>
      rw [List.map_cons, joinAll, ih (by simp), hgf a]
      show f a ++ ['\n'] ++ (pyJoin (str "\n") ((b :: u).map f) ++ ['\n']) =
        (f a ++ str "\n" ++ pyJoin (str "\n") ((b :: u).map f)) ++ ['\n']
      simp [List.append_assoc]
      rfl

/-- `save_test_cases` serializes a record's step list with fresh 1-based
numbering: the stored text is the newline-join of `i. step` lines. -/
theorem serializeSteps_renumbers (steps : List Str)
    (h : ∀ s ∈ steps, pyStrip s = s ∧ s ≠ []) :
    serializeSteps steps =
      pyJoin (str "\n") ((pyEnum 1 steps).map fun p => natToStr p.1 ++ str ". " ++ p.2) := by
  cases hs : steps with
  | nil => rfl
  | cons s0 srest =>
    subst hs
    unfold serializeSteps
    rw [joinAll_map_append_nl2 (fun p => natToStr p.1 ++ str ". " ++ p.2 ++ ['\n'])
      (fun p => natToStr p.1 ++ str ". " ++ p.2) (fun x => rfl)
      (show pyEnum 1 (s0 :: srest) ≠ [] from by simp [pyEnum])]
    rw [pyStrip_append_space (by decide)]
    have hrow_ne : ∀ x ∈ (pyEnum 1 (s0 :: srest)).map (fun p => natToStr p.1 ++ str ". " ++ p.2),
        x ≠ [] := by
      intro x hx
      rcases List.mem_map.1 hx with ⟨p, _, rfl⟩
      exact append_ne_nil_left _ (append_ne_nil_left _ (natToStr_ne_nil p.1))
    apply pyStrip_eq_self
    · intro c hc
      rw [show (pyEnum 1 (s0 :: srest)).map (fun p => natToStr p.1 ++ str ". " ++ p.2) =
        (natToStr 1 ++ str ". " ++ s0) ::
          (pyEnum 2 srest).map (fun p => natToStr p.1 ++ str ". " ++ p.2) from rfl] at hc
      rw [pyJoin_head?_left _ _
        (append_ne_nil_left _ (append_ne_nil_left _ (natToStr_ne_nil 1)))] at hc
      rw [head?_append_left _ (append_ne_nil_left _ (natToStr_ne_nil 1))] at hc
      rw [head?_append_left _ (natToStr_ne_nil 1)] at hc
      exact (digitChar_spec (mem_natToStr_digits (head?_mem hc))).2.1
    · intro c hc
      obtain ⟨r, hr⟩ := getLast?_some_of_ne_nil
        (show (pyEnum 1 (s0 :: srest)).map (fun p => natToStr p.1 ++ str ". " ++ p.2) ≠ []
          from by simp [pyEnum])
      rw [pyJoin_getLast?_last _ hr hrow_ne] at hc
      rcases List.mem_map.1 (mem_of_getLast? hr) with ⟨p, hp, rfl⟩
      have hp2 := h p.2 (pyEnum_mem_snd hp)
      rw [getLast?_append_right _ hp2.2] at hc
      exact stripFixed_getLast hp2.1 hc

theorem pyJoin_ne_nil_of_head (sep : Str) {x : Str} (xs : List Str) (h : x ≠ []) :
    pyJoin sep (x :: xs) ≠ [] := by
  cases xs with
  | nil => exact h
  | cons y u =>
    show x ++ sep ++ pyJoin sep (y :: u) ≠ []
    exact append_ne_nil_left _ (append_ne_nil_left _ h)

/-- C1: a pasted reply made of N well-formed test-case blocks — each a
`Test Case <k>: <scenario>` header followed by a steps section of numbered
lines and an expected section — parses to exactly N records, in block order,
the record's ID being the header text before the first colon and its scenario
the (stripped) text after it, with each step's source numbering removed; on
`save_test_cases` every record's step list is serialized with fresh 1-based
numbering `1..len(steps)` regardless of the numbering in the source text; and
the reply `"Test Case 1: Login\nSteps to Execute\n1. Open page\n2. Enter
credentials\nExpected Result\nUser is logged in"` parses to the single record
with id `Test Case 1`, scenario `Login`, steps `Open page`, `Enter
credentials` and expected result `User is logged in`. -/
theorem parseWellFormedReply :
    (∀ blocks : List RawBlock,
      (∀ b ∈ blocks, WFBlock b) → blocks ≠ [] →
      (∀ l ∈ joinAll (blocks.map renderBlock), '\n' ∉ l) →
      pyStrip (pyJoin (str "\n") (joinAll (blocks.map renderBlock))) =
        pyJoin (str "\n") (joinAll (blocks.map renderBlock)) →
      (processAIResponse [] (pyJoin (str "\n") (joinAll (blocks.map renderBlock)))).state =
        blocks.map blockRecord) ∧
    (∀ tc : TestCase, (∀ s ∈ tc.steps, pyStrip s = s ∧ s ≠ []) →
      (saveRow tc).stepsText =
        pyJoin (str "\n") ((pyEnum 1 tc.steps).map fun p => natToStr p.1 ++ str ". " ++ p.2)) ∧
    (processAIResponse []
      (str "Test Case 1: Login\nSteps to Execute\n1. Open page\n2. Enter credentials\nExpected Result\nUser is logged in")).state =
      [⟨str "Test Case 1", str "Login", [str "Open page", str "Enter credentials"],
        str "User is logged in"⟩] := by
  refine ⟨?_, ?_, by decide⟩
  · intro blocks hwf hne hnl hstrip
    obtain ⟨b0, bs, rfl⟩ : ∃ b0 bs, blocks = b0 :: bs := by
      cases blocks with
      | nil => exact absurd rfl hne
      | cons b0 bs => exact ⟨b0, bs, rfl⟩
    have hLne : joinAll ((b0 :: bs).map renderBlock) ≠ [] := by
      rw [List.map_cons, joinAll]
      exact append_ne_nil_left _ (by simp [renderBlock])
    have hreply_ne : pyJoin (str "\n") (joinAll ((b0 :: bs).map renderBlock)) ≠ [] := by
      rw [List.map_cons, joinAll]
      rw [show renderBlock b0 ++ joinAll (bs.map renderBlock) =
        (b0.id ++ (':' :: b0.scen)) ::
          ((str "Steps to Execute" ::
            (b0.steps.map renderStep ++ (str "Expected Result" :: b0.expLines))) ++
           joinAll (bs.map renderBlock)) from rfl]
      exact pyJoin_ne_nil_of_head _ _ (by cases hb : b0.id <;> simp)
    have hstate : (processAIResponse []
        (pyJoin (str "\n") (joinAll ((b0 :: bs).map renderBlock)))).state =
        (parseFold [] (pyJoin (str "\n") (joinAll ((b0 :: bs).map renderBlock)))).acc ++
          flushOpt (parseFold []
            (pyJoin (str "\n") (joinAll ((b0 :: bs).map renderBlock)))).current := by
      unfold processAIResponse
      rw [hstrip, if_neg hreply_ne]
    rw [hstate]
    unfold parseFold
    rw [hstrip, splitNl_pyJoin hLne hnl]
    have h2 := processBlocks (b0 :: bs) [] none none hwf (by simp)
    simpa using h2
  · intro tc h
    show serializeSteps tc.steps = _
    exact serializeSteps_renumbers tc.steps h

theorem parseWellFormedReply_witness :
    (processAIResponse [] (pyJoin (str "\n") (joinAll ([blockW].map renderBlock)))).state =
      [blockW].map blockRecord ∧
    (saveRow ⟨str "Test Case 1", str "Login",
        [str "Open page", str "Enter credentials"], str "User is logged in"⟩).stepsText =
      pyJoin (str "\n") ((pyEnum 1 [str "Open page", str "Enter credentials"]).map
        fun p => natToStr p.1 ++ str ". " ++ p.2) :=
  ⟨parseWellFormedReply.1 [blockW] (by decide) (by simp) (by decide) (by decide),
   parseWellFormedReply.2.1 ⟨str "Test Case 1", str "Login",
     [str "Open page", str "Enter credentials"], str "User is logged in"⟩ (by decide)⟩
